import Mathlib

/-!
Verification of the SEER robot controller repository.

This file embeds the message framing codec (`pack_message`, `packMasg`,
`unpack_header`, the little-endian variant used by the rotation script),
the JSON serialization layer it relies on (a model of Python's
`json.dumps` / `json.loads` with the default `ensure_ascii=True`
behaviour, over integers, booleans, strings, arrays and objects), and
the connection / monitoring state machine of `SeerController`
(`send_command`, `query_position`, `disconnect`,
`stop_position_monitoring`, the bounded position history and the
statistics counters).  Theorems at the end of the file settle the
claims about the codec round trip, the payload-length invariant, the
byte-order discrepancy of the rotation script, the error handling of
`send_command`, the history bound, the request-id behaviour, observer
isolation, idempotence and the statistics invariant.
-/

/-! ## Byte-level helpers (model of `struct.pack` field encodings) -/

/-- Big-endian encoding of a 16-bit value ('H' in format '!BBHLH6s'). -/
def be16 (n : Nat) : List Nat := [n / 256 % 256, n % 256]

/-- Big-endian encoding of a 32-bit value ('L' in format '!BBHLH6s'). -/
def be32 (n : Nat) : List Nat :=
  [n / 16777216 % 256, n / 65536 % 256, n / 256 % 256, n % 256]

/-- Little-endian encoding of a 16-bit value ('H' in format '<BBHIHH4x'). -/
def le16 (n : Nat) : List Nat := [n % 256, n / 256 % 256]

/-- Little-endian encoding of a 32-bit value ('I' in format '<BBHIHH4x'). -/
def le32 (n : Nat) : List Nat :=
  [n % 256, n / 256 % 256, n / 65536 % 256, n / 16777216 % 256]

/-- Big-endian recomposition of two bytes. -/
def read16 (a b : Nat) : Nat := a * 256 + b

/-- Big-endian recomposition of four bytes. -/
def read32 (a b c d : Nat) : Nat := ((a * 256 + b) * 256 + c) * 256 + d

/-! ## JSON values

A model of the JSON-representable Python values handled by
`json.dumps` / `json.loads` in the source: `None`, booleans, integers,
strings, lists and dicts.  Strings are lists of Unicode code points.
Mutual inductives are used instead of nesting `List` so that
structural mutual recursion and induction are available.
-/

mutual

inductive Json : Type where
  | null : Json
  | bool : Bool → Json
  | num : Int → Json
  | str : List Nat → Json
  | arr : JList → Json
  | obj : JMembers → Json

inductive JList : Type where
  | nil : JList
  | cons : Json → JList → JList

inductive JMembers : Type where
  | nil : JMembers
  | cons : List Nat → Json → JMembers → JMembers

end

/-- Truthiness of a Python dict: empty dicts are falsy. -/
def JMembers.isEmpty : JMembers → Bool
  | .nil => true
  | .cons _ _ _ => false

/-- Scalar code points that can appear in a UTF-8 encodable string:
below 0x110000 and not a surrogate. -/
def scalarOk (c : Nat) : Bool :=
  decide (c < 1114112) && (decide (c < 55296) || decide (57344 ≤ c))

/-- Well-formed JSON string content: every code point is a Unicode
scalar value. -/
def wfStr (s : List Nat) : Bool := s.all scalarOk

mutual

/-- Well-formedness of a JSON value: all strings contain only Unicode
scalar values. -/
def wfV : Json → Bool
  | .null => true
  | .bool _ => true
  | .num _ => true
  | .str s => wfStr s
  | .arr es => wfL es
  | .obj ms => wfM ms

def wfL : JList → Bool
  | .nil => true
  | .cons e es => wfV e && wfL es

def wfM : JMembers → Bool
  | .nil => true
  | .cons k v ms => wfStr k && wfV v && wfM ms

end

/-! ## Serialization (model of `json.dumps` with `ensure_ascii=True`) -/

/-- Lowercase hexadecimal digit character for a value below 16. -/
def hexDig (d : Nat) : Nat := if d < 10 then 48 + d else 87 + d

/-- Four lowercase hex digit characters of a value below 0x10000, as
emitted inside a `\uXXXX` escape. -/
def hex4 (n : Nat) : List Nat :=
  [hexDig (n / 4096 % 16), hexDig (n / 256 % 16), hexDig (n / 16 % 16),
   hexDig (n % 16)]

/-- Escape of a single string code point, following CPython's
`json.encoder` with `ensure_ascii=True`: shorthand escapes for the
quote, the backslash and the five control shorthands, `\uXXXX` for the
other non-printable or non-ASCII code points, surrogate pairs for
astral code points, the character itself otherwise. -/
def escChar (c : Nat) : List Nat :=
  if c = 34 then [92, 34]
  else if c = 92 then [92, 92]
  else if c = 8 then [92, 98]
  else if c = 9 then [92, 116]
  else if c = 10 then [92, 110]
  else if c = 12 then [92, 102]
  else if c = 13 then [92, 114]
  else if 32 ≤ c && c ≤ 126 then [c]
  else if c < 65536 then 92 :: 117 :: hex4 c
  else
    (92 :: 117 :: hex4 (55296 + (c - 65536) / 1024)) ++
      (92 :: 117 :: hex4 (56320 + (c - 65536) % 1024))

/-- Escape of a whole string content. -/
def escapeStr : List Nat → List Nat
  | [] => []
  | c :: cs => escChar c ++ escapeStr cs

/-- Decimal digits of a positive number, least significant first; the
first argument is recursion fuel. -/
def natDigitsRev : Nat → Nat → List Nat
  | 0, _ => []
  | _ + 1, 0 => []
  | fuel + 1, n + 1 => (n + 1) % 10 :: natDigitsRev fuel ((n + 1) / 10)

/-- Decimal digit characters of a natural number, as `repr` prints it. -/
def natChars (n : Nat) : List Nat :=
  if n = 0 then [48] else ((natDigitsRev n n).reverse.map fun d => 48 + d)

/-- Decimal text of an integer, as `json.dumps` prints Python ints. -/
def numChars (n : Int) : List Nat :=
  if n < 0 then 45 :: natChars n.natAbs else natChars n.toNat

mutual

/-- Code points of the `json.dumps` output for a value, with the
default separators: `", "` between items and `": "` after keys. -/
def dumpsV : Json → List Nat
  | .null => [110, 117, 108, 108]
  | .bool true => [116, 114, 117, 101]
  | .bool false => [102, 97, 108, 115, 101]
  | .num n => numChars n
  | .str s => 34 :: (escapeStr s ++ [34])
  | .arr .nil => [91, 93]
  | .arr (.cons e es) => 91 :: (dumpsV e ++ dumpsElems es ++ [93])
  | .obj .nil => [123, 125]
  | .obj (.cons k v ms) =>
      123 :: ((34 :: (escapeStr k ++ [34])) ++ (58 :: 32 :: dumpsV v) ++
        dumpsMems ms ++ [125])

/-- Serialization of the second and later array elements, each
preceded by the `", "` separator. -/
def dumpsElems : JList → List Nat
  | .nil => []
  | .cons e es => 44 :: 32 :: (dumpsV e ++ dumpsElems es)

/-- Serialization of the second and later object members, each
preceded by the `", "` separator. -/
def dumpsMems : JMembers → List Nat
  | .nil => []
  | .cons k v ms =>
      44 :: 32 :: ((34 :: (escapeStr k ++ [34])) ++ (58 :: 32 :: dumpsV v) ++
        dumpsMems ms)

end

/-! ## Text encodings (`str.encode`) -/

/-- UTF-8 bytes of one Unicode scalar value. -/
def utf8EncodeChar (c : Nat) : List Nat :=
  if c < 128 then [c]
  else if c < 2048 then [192 + c / 64, 128 + c % 64]
  else if c < 65536 then [224 + c / 4096, 128 + c / 64 % 64, 128 + c % 64]
  else [240 + c / 262144, 128 + c / 4096 % 64, 128 + c / 64 % 64, 128 + c % 64]

/-- UTF-8 encoding of a sequence of code points, the model of
`json_str.encode('utf-8')`. -/
def utf8Encode : List Nat → List Nat
  | [] => []
  | c :: cs => utf8EncodeChar c ++ utf8Encode cs

/-- Whether a byte is a UTF-8 continuation byte. -/
def utf8Cont (b : Nat) : Bool := decide (128 ≤ b) && decide (b < 192)

/-- Decoding of one UTF-8 encoded code point from the front of a byte
sequence, returning it with the remaining bytes; rejects malformed,
overlong and surrogate sequences as CPython's strict decoder does. -/
def utf8DecodeChar : List Nat → Option (Nat × List Nat)
  | [] => none
  | b :: bs =>
    if b < 128 then some (b, bs)
    else if b < 192 then none
    else if b < 224 then
      match bs with
      | b2 :: bs2 =>
        if utf8Cont b2 then
          let c := (b - 192) * 64 + (b2 - 128)
          if 128 ≤ c then some (c, bs2) else none
        else none
      | _ => none
    else if b < 240 then
      match bs with
      | b2 :: b3 :: bs2 =>
        if utf8Cont b2 && utf8Cont b3 then
          let c := ((b - 224) * 64 + (b2 - 128)) * 64 + (b3 - 128)
          if 2048 ≤ c && (c < 55296 || 57344 ≤ c) then some (c, bs2) else none
        else none
      | _ => none
    else if b < 248 then
      match bs with
      | b2 :: b3 :: b4 :: bs2 =>
        if utf8Cont b2 && utf8Cont b3 && utf8Cont b4 then
          let c := (((b - 240) * 64 + (b2 - 128)) * 64 + (b3 - 128)) * 64 +
            (b4 - 128)
          if 65536 ≤ c && c < 1114112 then some (c, bs2) else none
        else none
      | _ => none
    else none

/-- Fueled decoding loop over a whole byte sequence. -/
def utf8DecodeAux : Nat → List Nat → Option (List Nat)
  | 0, _ => none
  | _ + 1, [] => some []
  | f + 1, b :: bs =>
    match utf8DecodeChar (b :: bs) with
    | some (c, rest) =>
      match utf8DecodeAux f rest with
      | some cs => some (c :: cs)
      | none => none
    | none => none

/-- UTF-8 decoding of a byte sequence into code points, the model of
`bytes.decode('utf-8')`; each decoded code point consumes at least one
byte, so the fuel never runs out. -/
def utf8Decode (bs : List Nat) : Option (List Nat) :=
  utf8DecodeAux (bs.length + 1) bs

/-- ASCII encoding of a sequence of code points, the model of
`bytearray(jsonStr, 'ascii')`; fails on any code point at or above
128. -/
def asciiEncode (cs : List Nat) : Option (List Nat) :=
  if cs.all (fun c => decide (c < 128)) then some cs else none

/-! ## Parsing (model of `json.loads`) -/

/-- Whitespace characters skipped by the JSON parser. -/
def wsChar (c : Nat) : Bool := c = 32 || c = 9 || c = 10 || c = 13

/-- Decimal digit characters. -/
def isDigitB (c : Nat) : Bool := decide (48 ≤ c) && decide (c ≤ 57)

/-- Whitespace skipping. -/
def skipWs (s : List Nat) : List Nat := s.dropWhile wsChar

/-- Removal of an expected literal, returning the remainder. -/
def stripLit : List Nat → List Nat → Option (List Nat)
  | [], s => some s
  | p :: ps, c :: s => if c = p then stripLit ps s else none
  | _ :: _, [] => none

/-- Value of one hexadecimal digit character. -/
def hexVal (c : Nat) : Option Nat :=
  if 48 ≤ c && c ≤ 57 then some (c - 48)
  else if 97 ≤ c && c ≤ 102 then some (c - 87)
  else if 65 ≤ c && c ≤ 70 then some (c - 55)
  else none

/-- Value of a four-hex-digit group inside a `\uXXXX` escape. -/
def hex4Val (a b c d : Nat) : Option Nat :=
  match hexVal a, hexVal b, hexVal c, hexVal d with
  | some x, some y, some z, some w => some (((x * 16 + y) * 16 + z) * 16 + w)
  | _, _, _, _ => none

/-- Resolution of a single-character escape shorthand. -/
def unescChar (e : Nat) : Option Nat :=
  if e = 34 then some 34
  else if e = 92 then some 92
  else if e = 47 then some 47
  else if e = 98 then some 8
  else if e = 116 then some 9
  else if e = 110 then some 10
  else if e = 102 then some 12
  else if e = 114 then some 13
  else none

/-- Parse of the digits of a `\uXXXX` escape, after the `\u` has been
consumed: returns the code point and the remaining input.  A high
surrogate followed by a low-surrogate escape is combined into one
astral code point, as CPython's `json.decoder` does; an unpaired
surrogate escape is kept as it stands. -/
def parseUEsc : List Nat → Option (Nat × List Nat)
  | a :: b :: c2 :: d :: r3 =>
    match hex4Val a b c2 d with
    | none => none
    | some n =>
      if 55296 ≤ n && n ≤ 56319 then
        match r3 with
        | s1 :: s2 :: a2 :: b2 :: c3 :: d2 :: r4 =>
          if s1 = 92 && s2 = 117 then
            match hex4Val a2 b2 c3 d2 with
            | some m =>
              if 56320 ≤ m && m ≤ 57343 then
                some (65536 + (n - 55296) * 1024 + (m - 56320), r4)
              else some (n, r3)
            | none => some (n, r3)
          else some (n, r3)
        | _ => some (n, r3)
      else some (n, r3)
  | _ => none

/-- Parse of a string body after its opening quote, returning the
content code points and the remainder after the closing quote;
unescaped control characters are rejected. -/
def parseStrBody : Nat → List Nat → Option (List Nat × List Nat)
  | 0, _ => none
  | _, [] => none
  | f + 1, c :: r =>
    if c = 34 then some ([], r)
    else if c = 92 then
      match r with
      | [] => none
      | e :: r2 =>
        if e = 117 then
          match parseUEsc r2 with
          | some (ch, rr) =>
            match parseStrBody f rr with
            | some (cs, rr2) => some (ch :: cs, rr2)
            | none => none
          | none => none
        else
          match unescChar e with
          | some ch =>
            match parseStrBody f r2 with
            | some (cs, rr) => some (ch :: cs, rr)
            | none => none
          | none => none
    else if c < 32 then none
    else
      match parseStrBody f r with
      | some (cs, rr) => some (c :: cs, rr)
      | none => none

/-- Numeric value of a digit-character run. -/
def digitsVal (ds : List Nat) : Nat :=
  ds.foldl (fun a c => a * 10 + (c - 48)) 0

mutual

/-- Parse of one JSON value, skipping leading whitespace; the first
argument is recursion fuel for the mutual nesting. -/
def parseV : Nat → List Nat → Option (Json × List Nat)
  | 0, _ => none
  | f + 1, s =>
    match skipWs s with
    | [] => none
    | c :: r =>
      if c = 110 then
        match stripLit [117, 108, 108] r with
        | some r2 => some (.null, r2)
        | none => none
      else if c = 116 then
        match stripLit [114, 117, 101] r with
        | some r2 => some (.bool true, r2)
        | none => none
      else if c = 102 then
        match stripLit [97, 108, 115, 101] r with
        | some r2 => some (.bool false, r2)
        | none => none
      else if c = 34 then
        match parseStrBody (r.length + 1) r with
        | some (cs, r2) => some (.str cs, r2)
        | none => none
      else if c = 91 then
        match skipWs r with
        | [] => none
        | c2 :: r2 =>
          if c2 = 93 then some (.arr .nil, r2)
          else
            match parseV f (c2 :: r2) with
            | some (e, r3) =>
              match parseElems f r3 with
              | some (es, r4) => some (.arr (.cons e es), r4)
              | none => none
            | none => none
      else if c = 123 then
        match skipWs r with
        | [] => none
        | c2 :: r2 =>
          if c2 = 125 then some (.obj .nil, r2)
          else if c2 = 34 then
            match parseStrBody (r2.length + 1) r2 with
            | some (k, r3) =>
              match skipWs r3 with
              | [] => none
              | c3 :: r4 =>
                if c3 = 58 then
                  match parseV f r4 with
                  | some (v, r5) =>
                    match parseMems f r5 with
                    | some (ms, r6) => some (.obj (.cons k v ms), r6)
                    | none => none
                  | none => none
                else none
            | none => none
          else none
      else if c = 45 then
        let ds := r.takeWhile isDigitB
        if ds.isEmpty then none
        else some (.num (-(Int.ofNat (digitsVal ds))), r.dropWhile isDigitB)
      else if isDigitB c then
        let ds := (c :: r).takeWhile isDigitB
        some (.num (Int.ofNat (digitsVal ds)), (c :: r).dropWhile isDigitB)
      else none

/-- Parse of the remaining array elements after the first one: either
the closing bracket or a comma followed by a value. -/
def parseElems : Nat → List Nat → Option (JList × List Nat)
  | 0, _ => none
  | f + 1, s =>
    match skipWs s with
    | [] => none
    | c :: r =>
      if c = 93 then some (.nil, r)
      else if c = 44 then
        match parseV f r with
        | some (e, r2) =>
          match parseElems f r2 with
          | some (es, r3) => some (.cons e es, r3)
          | none => none
        | none => none
      else none

/-- Parse of the remaining object members after the first one: either
the closing brace or a comma followed by a keyed value. -/
def parseMems : Nat → List Nat → Option (JMembers × List Nat)
  | 0, _ => none
  | f + 1, s =>
    match skipWs s with
    | [] => none
    | c :: r =>
      if c = 125 then some (.nil, r)
      else if c = 44 then
        match skipWs r with
        | [] => none
        | c2 :: r2 =>
          if c2 = 34 then
            match parseStrBody (r2.length + 1) r2 with
            | some (k, r3) =>
              match skipWs r3 with
              | [] => none
              | c3 :: r4 =>
                if c3 = 58 then
                  match parseV f r4 with
                  | some (v, r5) =>
                    match parseMems f r5 with
                    | some (ms, r6) => some (.cons k v ms, r6)
                    | none => none
                  | none => none
                else none
            | none => none
          else none
      else none

end

/-- Parse of a complete JSON document, the model of `json.loads`:
one value, possibly surrounded by whitespace, with nothing after it. -/
def loads (cs : List Nat) : Option Json :=
  match parseV (cs.length + 1) cs with
  | some (v, rest) => if skipWs rest = [] then some v else none
  | none => none

deriving instance DecidableEq for Json

/-! ## Frame codec

The 16-byte header layouts of the source: `'!BBHLH6s'` (big-endian,
used by `seer_controller.py`, `util.py` and every other script) and
`'<BBHIHH4x'` (little-endian, used only by `rotate_angle.py`).
`struct.pack` raises `struct.error` on a field value out of range,
modelled by returning `none`.
-/

/-- Decoded header fields, as the dict returned by `unpack_header`. -/
structure Header where
  magic : Nat
  version : Nat
  req_id : Nat
  msg_len : Nat
  msg_type : Nat
  reserved : List Nat
deriving Repr, DecidableEq

/-- Model of `struct.pack('!BBHLH6s', 0x5A, 0x01, reqId, msgLen,
msgType, b'\x00'*6)`: fails when a field exceeds its width. -/
def packHeaderBE (reqId msgLen msgType : Nat) : Option (List Nat) :=
  if reqId < 65536 && msgLen < 4294967296 && msgType < 65536 then
    some ([90, 1] ++ be16 reqId ++ be32 msgLen ++ be16 msgType ++
      [0, 0, 0, 0, 0, 0])
  else none

/-- Model of `struct.pack('<BBHIHH4x', 0x5A, 0x01, reqId, msgLen,
msgType, 0)` from `rotate_angle.py`: little-endian fields, a 2-byte
zero reserved field and 4 padding bytes. -/
def packHeaderLE (reqId msgLen msgType : Nat) : Option (List Nat) :=
  if reqId < 65536 && msgLen < 4294967296 && msgType < 65536 then
    some ([90, 1] ++ le16 reqId ++ le32 msgLen ++ le16 msgType ++
      le16 0 ++ [0, 0, 0, 0])
  else none

/-- Model of `SeerController.pack_message`: serializes a dict payload
only when it is truthy (non-empty), measures its UTF-8 byte length,
packs the big-endian header and appends the body only when the dict is
truthy. -/
def pack_message (reqId msgType : Nat) (msg : JMembers) : Option (List Nat) :=
  let jsonStr := if msg.isEmpty then [] else dumpsV (Json.obj msg)
  let body := utf8Encode jsonStr
  let msgLen := if msg.isEmpty then 0 else body.length
  match packHeaderBE reqId msgLen msgType with
  | some hdr => some (hdr ++ (if msg.isEmpty then [] else body))
  | none => none

/-- Model of `util.packMasg`: the official helper; the length field is
the character count of the JSON text and the body is its ASCII
encoding, both only when the dict is non-empty. -/
def packMasg (reqId msgType : Nat) (msg : JMembers) : Option (List Nat) :=
  let jsonStr := dumpsV (Json.obj msg)
  let msgLen := if msg.isEmpty then 0 else jsonStr.length
  match packHeaderBE reqId msgLen msgType with
  | none => none
  | some hdr =>
    if msg.isEmpty then some hdr
    else
      match asciiEncode jsonStr with
      | some body => some (hdr ++ body)
      | none => none

/-- Model of `SeerRotationController.pack_message` from
`rotate_angle.py`: identical body handling, but the header packed with
the little-endian `'<BBHIHH4x'` layout. -/
def rotatePackMessage (reqId msgType : Nat) (msg : JMembers) :
    Option (List Nat) :=
  let jsonStr := if msg.isEmpty then [] else dumpsV (Json.obj msg)
  let body := utf8Encode jsonStr
  let msgLen := if msg.isEmpty then 0 else body.length
  match packHeaderLE reqId msgLen msgType with
  | some hdr => some (hdr ++ (if msg.isEmpty then [] else body))
  | none => none

/-- Model of `SeerController.unpack_header`: raises for fewer than 16
bytes, and `struct.unpack` itself raises unless the buffer is exactly
16 bytes; otherwise returns the parsed big-endian fields. -/
def unpack_header (data : List Nat) : Option Header :=
  if data.length = 16 then
    some
      { magic := data.getD 0 0
        version := data.getD 1 0
        req_id := read16 (data.getD 2 0) (data.getD 3 0)
        msg_len := read32 (data.getD 4 0) (data.getD 5 0) (data.getD 6 0)
          (data.getD 7 0)
        msg_type := read16 (data.getD 8 0) (data.getD 9 0)
        reserved := data.drop 10 }
  else none

/-- Model of the response-body handling in `send_command` lines
179-209: a zero `msg_len` yields the empty dict without reading any
body bytes; otherwise the received bytes (at most `msg_len` of them)
are UTF-8 decoded and parsed as JSON, any failure yielding `None`. -/
def parse_body (len : Nat) (bytes : List Nat) : Option Json :=
  if len = 0 then some (Json.obj JMembers.nil)
  else
    match utf8Decode (bytes.take len) with
    | some cs => loads cs
    | none => none

/-! ## Controller state machine (`SeerController`) -/

/-- Counters of the `self.stats` dict. -/
structure Stats where
  position_queries : Nat
  successful_queries : Nat
  failed_queries : Nat
  connection_attempts : Nat
  start_time : Option Nat
  last_update : Option Nat
deriving Repr, DecidableEq

/-- Mutable state of a `SeerController` instance; times are modelled
as naturals supplied by the caller. -/
structure CState where
  connected : Bool
  socket : Option Unit
  position_running : Bool
  position_thread : Option Unit
  last_position : Option Json
  position_history : List (Nat × Json)
  stats : Stats
deriving DecidableEq

/-- Outcome of the network interactions of one `send_command` call:
an exception while sending, a receive timeout, another receive
exception, or a received header (as returned by `recv(16)`) together
with the stream of body bytes available afterwards. -/
inductive NetEvent where
  | sendErr : NetEvent
  | timeout : NetEvent
  | recvErr : NetEvent
  | ok : List Nat → List Nat → NetEvent
deriving Repr, DecidableEq

/-- Result of one `send_command` call: the state after the call, the
returned value (`None` on failure) and the frame handed to
`socket.send`, when one was. -/
structure CallResult where
  state : CState
  response : Option Json
  sent : Option (List Nat)
deriving DecidableEq

/-- Model of `SeerController.send_command`.  Failure handling follows
the source exactly: `socket.timeout` is caught by its own handler
which returns `None` without touching `self.connected`; every other
exception (send failure, receive failure, a malformed header making
`unpack_header` or `struct.unpack` raise, a `struct.error` while
packing) is caught by the generic handler which sets
`self.connected = False`; an empty response, a wrong magic byte and a
JSON parse error return `None` without touching `self.connected`. -/
def send_command (st : CState) (reqId msgType : Nat) (msg : JMembers)
    (_expectedResponse : Option Nat) (ev : NetEvent) : CallResult :=
  if st.connected = false then ⟨st, none, none⟩
  else
    match pack_message reqId msgType msg with
    | none => ⟨{ st with connected := false }, none, none⟩
    | some frame =>
      match ev with
      | .sendErr => ⟨{ st with connected := false }, none, some frame⟩
      | .timeout => ⟨st, none, some frame⟩
      | .recvErr => ⟨{ st with connected := false }, none, some frame⟩
      | .ok hdrData body =>
        if hdrData.length = 0 then ⟨st, none, some frame⟩
        else
          match unpack_header hdrData with
          | none => ⟨{ st with connected := false }, none, some frame⟩
          | some h =>
            if h.magic ≠ 90 then ⟨st, none, some frame⟩
            else
              match parse_body h.msg_len body with
              | some v => ⟨st, some v, some frame⟩
              | none => ⟨st, none, some frame⟩

/-- Message-type constants of the position query. -/
def REQUEST_POSITION : Nat := 1004

/-- Message-type constant of the position response. -/
def RESPONSE_POSITION : Nat := 11004

/-- History bound `self.max_history`. -/
def max_history : Nat := 100

/-- Model of the history update in `query_position` lines 244-251:
append, then drop the entry at index 0 when the length exceeds the
bound. -/
def historyAppend (hist : List (Nat × Json)) (entry : Nat × Json) :
    List (Nat × Json) :=
  let h := hist ++ [entry]
  if h.length > max_history then h.drop 1 else h

/-- Model of the callback loop in `query_position`: each callback is
invoked inside its own try/except, so a failing callback (`false`) is
recorded and the loop continues with the next one. -/
def notifyLoop : List (Json → Bool) → Json → List Bool
  | [], _ => []
  | cb :: rest, v => cb v :: notifyLoop rest v

/-- Result of one `query_position` call: the final state, the returned
value, the frame sent, and the outcomes of the position and error
callbacks in invocation order. -/
structure QueryResult where
  state : CState
  response : Option Json
  sent : Option (List Nat)
  posCalls : List Bool
  errCalls : List Bool

/-- Model of `SeerController.query_position`: increments
`position_queries`, performs `send_command(1, REQUEST_POSITION, {},
RESPONSE_POSITION)`, then on success increments `successful_queries`,
records `last_update`, replaces the cached position, appends to the
bounded history and notifies the position callbacks; on failure
increments `failed_queries` and notifies the error callbacks. -/
def query_position (st : CState) (cbs : List (Json → Bool))
    (ecbs : List Bool) (ev : NetEvent) (now : Nat) : QueryResult :=
  let st1 := { st with stats :=
    { st.stats with position_queries := st.stats.position_queries + 1 } }
  let r := send_command st1 1 REQUEST_POSITION JMembers.nil
    (some RESPONSE_POSITION) ev
  match r.response with
  | some data =>
    let st2 := { r.state with stats :=
      { r.state.stats with
          successful_queries := r.state.stats.successful_queries + 1
          last_update := some now } }
    let st3 := { st2 with
      last_position := some data
      position_history := historyAppend st2.position_history (now, data) }
    ⟨st3, some data, r.sent, notifyLoop cbs data, []⟩
  | none =>
    let st2 := { r.state with stats :=
      { r.state.stats with
          failed_queries := r.state.stats.failed_queries + 1 } }
    ⟨st2, none, r.sent, [], ecbs⟩

/-- Model of `SeerController.disconnect`: clears the connected flag
and closes and forgets the socket when one is held; the `close`
failure is swallowed. -/
def disconnect (st : CState) : CState :=
  { st with connected := false, socket := none }

/-- Model of `SeerController.stop_position_monitoring`: returns
immediately when monitoring is not running, otherwise clears the flag
and joins and forgets the thread. -/
def stop_position_monitoring (st : CState) : CState :=
  if st.position_running = false then st
  else { st with position_running := false, position_thread := none }

/-- Request id as placed in a sent frame, extracted by decoding the
first 16 bytes of the frame recorded in a query result. -/
def sentReqId (q : QueryResult) : Option Nat :=
  q.sent.bind fun f => (unpack_header (f.take 16)).map fun h => h.req_id

/-! ## ASCII output of the serializer -/

theorem hexDig_lt (d : Nat) (h : d < 16) : hexDig d < 128 := by
  unfold hexDig; split <;> omega

theorem hex4_ascii (n : Nat) : ∀ c ∈ hex4 n, c < 128 := by
  intro c hc
  simp only [hex4, List.mem_cons, List.mem_singleton, List.not_mem_nil,
    or_false] at hc
  rcases hc with h | h | h | h <;>
    (subst h; exact hexDig_lt _ (Nat.mod_lt _ (by omega)))

theorem escChar_ascii (c : Nat) : ∀ x ∈ escChar c, x < 128 := by
  intro x hx
  unfold escChar at hx
  split at hx
  · simp at hx; omega
  · split at hx
    · simp at hx; omega
    · split at hx
      · simp at hx; omega
      · split at hx
        · simp at hx; omega
        · split at hx
          · simp at hx; omega
          · split at hx
            · simp at hx; omega
            · split at hx
              · simp at hx; omega
              · split at hx
                · next h =>
                  simp at hx
                  subst hx
                  simp at h
                  omega
                · split at hx
                  · simp only [List.mem_cons] at hx
                    rcases hx with h | h | h
                    · omega
                    · omega
                    · exact hex4_ascii _ _ h
                  · simp only [List.mem_append, List.mem_cons] at hx
                    rcases hx with (h | h | h) | (h | h | h)
                    · omega
                    · omega
                    · exact hex4_ascii _ _ h
                    · omega
                    · omega
                    · exact hex4_ascii _ _ h

theorem escapeStr_ascii (s : List Nat) : ∀ x ∈ escapeStr s, x < 128 := by
  induction s with
  | nil => intro x hx; simp [escapeStr] at hx
  | cons c cs ih =>
    intro x hx
    simp only [escapeStr, List.mem_append] at hx
    rcases hx with h | h
    · exact escChar_ascii c x h
    · exact ih x h

theorem natDigitsRev_lt (fuel n : Nat) : ∀ d ∈ natDigitsRev fuel n, d < 10 := by
  induction fuel generalizing n with
  | zero => intro d hd; simp [natDigitsRev] at hd
  | succ f ih =>
    intro d hd
    match n with
    | 0 => simp [natDigitsRev] at hd
    | m + 1 =>
      simp only [natDigitsRev, List.mem_cons] at hd
      rcases hd with h | h
      · subst h; exact Nat.mod_lt _ (by omega)
      · exact ih _ d h

theorem natChars_digits (n : Nat) : ∀ c ∈ natChars n, 48 ≤ c ∧ c ≤ 57 := by
  intro c hc
  unfold natChars at hc
  split at hc
  · simp at hc; omega
  · simp only [List.mem_map, List.mem_reverse] at hc
    obtain ⟨d, hd, rfl⟩ := hc
    have := natDigitsRev_lt n n d hd
    omega

theorem numChars_ascii (n : Int) : ∀ c ∈ numChars n, c < 128 := by
  intro c hc
  unfold numChars at hc
  split at hc
  · simp only [List.mem_cons] at hc
    rcases hc with h | h
    · omega
    · have := natChars_digits _ _ h; omega
  · have := natChars_digits _ _ hc; omega

mutual

theorem dumpsV_ascii : ∀ (v : Json), ∀ c ∈ dumpsV v, c < 128
  | .null => by intro c hc; simp [dumpsV] at hc; omega
  | .bool true => by intro c hc; simp [dumpsV] at hc; omega
  | .bool false => by intro c hc; simp [dumpsV] at hc; omega
  | .num n => numChars_ascii n
  | .str s => by
    simp only [dumpsV, List.forall_mem_cons, List.forall_mem_append,
      List.not_mem_nil, false_implies, implies_true, and_true]
    refine ⟨by omega, escapeStr_ascii s, by omega⟩
  | .arr .nil => by intro c hc; simp [dumpsV] at hc; omega
  | .arr (.cons e es) => by
    simp only [dumpsV, List.forall_mem_cons, List.forall_mem_append,
      List.not_mem_nil, false_implies, implies_true, and_true]
    refine ⟨by omega, ⟨dumpsV_ascii e, dumpsElems_ascii es⟩, by omega⟩
  | .obj .nil => by intro c hc; simp [dumpsV] at hc; omega
  | .obj (.cons k v ms) => by
    simp only [dumpsV, List.forall_mem_cons, List.forall_mem_append,
      List.not_mem_nil, false_implies, implies_true, and_true]
    repeat' apply And.intro
    all_goals
      first
        | omega
        | exact escapeStr_ascii k
        | exact dumpsV_ascii v
        | exact dumpsMems_ascii ms

theorem dumpsElems_ascii : ∀ (es : JList), ∀ c ∈ dumpsElems es, c < 128
  | .nil => by intro c hc; simp [dumpsElems] at hc
  | .cons e es => by
    simp only [dumpsElems, List.forall_mem_cons, List.forall_mem_append,
      List.not_mem_nil, false_implies, implies_true, and_true]
    refine ⟨by omega, by omega, dumpsV_ascii e, dumpsElems_ascii es⟩

theorem dumpsMems_ascii : ∀ (ms : JMembers), ∀ c ∈ dumpsMems ms, c < 128
  | .nil => by intro c hc; simp [dumpsMems] at hc
  | .cons k v ms => by
    simp only [dumpsMems, List.forall_mem_cons, List.forall_mem_append,
      List.not_mem_nil, false_implies, implies_true, and_true]
    repeat' apply And.intro
    all_goals
      first
        | omega
        | exact escapeStr_ascii k
        | exact dumpsV_ascii v
        | exact dumpsMems_ascii ms

end

/-! ## Text-encoding identities on ASCII data -/

theorem utf8EncodeChar_ascii (c : Nat) (h : c < 128) :
    utf8EncodeChar c = [c] := by
  simp [utf8EncodeChar, h]

theorem utf8Encode_ascii (cs : List Nat) (h : ∀ c ∈ cs, c < 128) :
    utf8Encode cs = cs := by
  induction cs with
  | nil => rfl
  | cons c t ih =>
    have hc : c < 128 := h c (by simp)
    rw [utf8Encode, utf8EncodeChar_ascii c hc,
      ih fun x hx => h x (by simp [hx])]
    rfl

theorem utf8DecodeAux_ascii (f : Nat) (cs : List Nat) (hf : cs.length < f)
    (h : ∀ c ∈ cs, c < 128) : utf8DecodeAux f cs = some cs := by
  induction f generalizing cs with
  | zero => omega
  | succ f ih =>
    match cs with
    | [] => rfl
    | c :: t =>
      have hc : c < 128 := h c (by simp)
      have ht : utf8DecodeAux f t = some t := by
        refine ih t (by simp at hf; omega) fun x hx => h x (by simp [hx])
      simp [utf8DecodeAux, utf8DecodeChar, hc, ht]

theorem utf8Decode_ascii (cs : List Nat) (h : ∀ c ∈ cs, c < 128) :
    utf8Decode cs = some cs :=
  utf8DecodeAux_ascii _ cs (by omega) h

theorem asciiEncode_ascii (cs : List Nat) (h : ∀ c ∈ cs, c < 128) :
    asciiEncode cs = some cs := by
  have hall : cs.all (fun c => decide (c < 128)) = true := by
    simp only [List.all_eq_true, decide_eq_true_eq]
    exact h
  simp [asciiEncode, hall]

/-! ## String escape round trip -/

theorem hexVal_hexDig : ∀ d < 16, hexVal (hexDig d) = some d := by decide

theorem hex4Val_hex4 (n : Nat) (h : n < 65536) :
    hex4Val (hexDig (n / 4096 % 16)) (hexDig (n / 256 % 16))
      (hexDig (n / 16 % 16)) (hexDig (n % 16)) = some n := by
  have h1 := hexVal_hexDig (n / 4096 % 16) (Nat.mod_lt _ (by omega))
  have h2 := hexVal_hexDig (n / 256 % 16) (Nat.mod_lt _ (by omega))
  have h3 := hexVal_hexDig (n / 16 % 16) (Nat.mod_lt _ (by omega))
  have h4 := hexVal_hexDig (n % 16) (Nat.mod_lt _ (by omega))
  simp only [hex4Val, h1, h2, h3, h4, Option.some.injEq]
  omega

theorem parseUEsc_bmp (n : Nat) (hn : n < 65536)
    (hns : (55296 ≤ n && n ≤ 56319) = false) (R : List Nat) :
    parseUEsc (hexDig (n / 4096 % 16) :: hexDig (n / 256 % 16) ::
      hexDig (n / 16 % 16) :: hexDig (n % 16) :: R) = some (n, R) := by
  simp [parseUEsc, hex4Val_hex4 n hn, hns]

theorem parseUEsc_pair (a b c2 d a2 b2 c3 d2 n m : Nat)
    (hn : hex4Val a b c2 d = some n) (hn1 : 55296 ≤ n) (hn2 : n ≤ 56319)
    (hm : hex4Val a2 b2 c3 d2 = some m) (hm1 : 56320 ≤ m) (hm2 : m ≤ 57343)
    (R : List Nat) :
    parseUEsc (a :: b :: c2 :: d :: 92 :: 117 :: a2 :: b2 :: c3 :: d2 :: R) =
      some (65536 + (n - 55296) * 1024 + (m - 56320), R) := by
  have h1 : (55296 ≤ n && n ≤ 56319) = true := by simp; omega
  have h2 : (56320 ≤ m && m ≤ 57343) = true := by simp; omega
  simp [parseUEsc, hn, hm, h1, h2]

theorem parseUEsc_astral (c : Nat) (h1 : 65536 ≤ c) (h2 : c < 1114112)
    (R : List Nat) :
    parseUEsc (hexDig ((55296 + (c - 65536) / 1024) / 4096 % 16) ::
      hexDig ((55296 + (c - 65536) / 1024) / 256 % 16) ::
      hexDig ((55296 + (c - 65536) / 1024) / 16 % 16) ::
      hexDig ((55296 + (c - 65536) / 1024) % 16) ::
      92 :: 117 ::
      hexDig ((56320 + (c - 65536) % 1024) / 4096 % 16) ::
      hexDig ((56320 + (c - 65536) % 1024) / 256 % 16) ::
      hexDig ((56320 + (c - 65536) % 1024) / 16 % 16) ::
      hexDig ((56320 + (c - 65536) % 1024) % 16) :: R) = some (c, R) := by
  have hmod : (c - 65536) % 1024 < 1024 := Nat.mod_lt _ (by omega)
  have hhiv : 55296 + (c - 65536) / 1024 < 65536 := by omega
  have hlov : 56320 + (c - 65536) % 1024 < 65536 := by omega
  rw [parseUEsc_pair _ _ _ _ _ _ _ _ _ _ (hex4Val_hex4 _ hhiv) (by omega)
    (by omega) (hex4Val_hex4 _ hlov) (by omega) (by omega) R]
  have hcomb : 65536 + (55296 + (c - 65536) / 1024 - 55296) * 1024 +
      (56320 + (c - 65536) % 1024 - 56320) = c := by omega
  rw [hcomb]

theorem parseStrBody_uesc (f : Nat) (r2 : List Nat) (ch : Nat)
    (rr : List Nat) (hu : parseUEsc r2 = some (ch, rr)) (cs2 : List Nat)
    (rest2 : List Nat) (hs : parseStrBody f rr = some (cs2, rest2)) :
    parseStrBody (f + 1) (92 :: 117 :: r2) = some (ch :: cs2, rest2) := by
  simp [parseStrBody, hu, hs]

theorem parseUEsc_astral_app (c : Nat) (h1 : 65536 ≤ c) (h2 : c < 1114112)
    (R : List Nat) :
    parseUEsc (hex4 (55296 + (c - 65536) / 1024) ++
      (92 :: 117 :: (hex4 (56320 + (c - 65536) % 1024) ++ R))) =
      some (c, R) := by
  simpa only [hex4, List.cons_append, List.nil_append] using
    parseUEsc_astral c h1 h2 R

theorem parseStr_escape (s : List Nat) (hwf : wfStr s = true) :
    ∀ f rest, s.length < f →
      parseStrBody f (escapeStr s ++ (34 :: rest)) = some (s, rest) := by
  induction s with
  | nil =>
    intro f rest hf
    match f, hf with
    | f + 1, _ => simp [escapeStr, parseStrBody]
  | cons c cs ih =>
    intro f rest hf
    have hsc : scalarOk c = true ∧ wfStr cs = true := by
      simp only [wfStr, List.all_cons, Bool.and_eq_true] at hwf
      exact hwf
    have hc : c < 1114112 ∧ (c < 55296 ∨ 57344 ≤ c) := by
      have := hsc.1
      simp only [scalarOk, Bool.and_eq_true, Bool.or_eq_true,
        decide_eq_true_eq] at this
      exact this
    match f, hf with
    | f + 1, hf =>
    have hfs : cs.length < f := by simp at hf; omega
    have hrec := ih hsc.2 f rest hfs
    by_cases h34 : c = 34
    · subst h34
      simp [escapeStr, escChar, parseStrBody, unescChar, hrec]
    by_cases h92 : c = 92
    · subst h92
      simp [escapeStr, escChar, parseStrBody, unescChar, hrec]
    by_cases h8 : c = 8
    · subst h8
      simp [escapeStr, escChar, parseStrBody, unescChar, hrec]
    by_cases h9 : c = 9
    · subst h9
      simp [escapeStr, escChar, parseStrBody, unescChar, hrec]
    by_cases h10 : c = 10
    · subst h10
      simp [escapeStr, escChar, parseStrBody, unescChar, hrec]
    by_cases h12 : c = 12
    · subst h12
      simp [escapeStr, escChar, parseStrBody, unescChar, hrec]
    by_cases h13 : c = 13
    · subst h13
      simp [escapeStr, escChar, parseStrBody, unescChar, hrec]
    by_cases hpr : 32 ≤ c ∧ c ≤ 126
    · have hcond : (32 ≤ c && c ≤ 126) = true := by
        simp only [Bool.and_eq_true, decide_eq_true_eq]
        exact hpr
      have hnlt : ¬(c < 32) := by omega
      simp [escapeStr, escChar, h34, h92, h8, h9, h10, h12, h13, hcond,
        parseStrBody, hnlt, hrec]
    · have hcond : (32 ≤ c && c ≤ 126) = false := by
        simp only [Bool.and_eq_false_iff]
        rcases Nat.lt_or_ge c 32 with h | h
        · left; simpa using by omega
        · right; simpa using by omega
      by_cases hbmp : c < 65536
      · have hsur : (55296 ≤ c && c ≤ 56319) = false := by
          rcases hc.2 with h | h
          · simp; omega
          · simp; omega
        simp [escapeStr, escChar, h34, h92, h8, h9, h10, h12, h13,
          hcond, hbmp, hex4, parseStrBody, parseUEsc_bmp c hbmp hsur, hrec]
      · have hescC : escChar c =
            (92 :: 117 :: hex4 (55296 + (c - 65536) / 1024)) ++
              (92 :: 117 :: hex4 (56320 + (c - 65536) % 1024)) := by
          simp [escChar, h34, h92, h8, h9, h10, h12, h13, hcond, hbmp]
        rw [show escapeStr (c :: cs) = escChar c ++ escapeStr cs from rfl,
          hescC]
        simp only [List.cons_append, List.append_assoc]
        exact parseStrBody_uesc f _ c _
          (parseUEsc_astral_app c (by omega) hc.1 _) cs rest hrec

/-! ## Parser support lemmas -/

/-- Predicate used to keep the greedy digit scan from running into
the following input: the remainder is empty or starts with a
character rejected by the scan. -/
def headNot (p : Nat → Bool) : List Nat → Prop
  | [] => True
  | c :: _ => p c = false

theorem stripLit_pfx (p t : List Nat) : stripLit p (p ++ t) = some t := by
  induction p with
  | nil => rfl
  | cons c cs ih => simp [stripLit, ih]

theorem skipWs_nonws (c : Nat) (t : List Nat) (h : wsChar c = false) :
    skipWs (c :: t) = c :: t := by
  simp [skipWs, List.dropWhile_cons, h]

theorem skipWs_ws (c : Nat) (t : List Nat) (h : wsChar c = true) :
    skipWs (c :: t) = skipWs t := by
  simp [skipWs, List.dropWhile_cons, h]

theorem skipWs_idem (s : List Nat) : skipWs (skipWs s) = skipWs s := by
  induction s with
  | nil => rfl
  | cons c t ih =>
    by_cases h : wsChar c = true
    · rw [skipWs_ws c t h]; exact ih
    · rw [skipWs_nonws c t (by revert h; cases wsChar c <;> simp)]
      rw [skipWs_nonws c t (by revert h; cases wsChar c <;> simp)]

theorem parseV_skipWs (f : Nat) (s : List Nat) :
    parseV f s = parseV f (skipWs s) := by
  cases f with
  | zero => rfl
  | succ f => rw [parseV, parseV, skipWs_idem]

theorem takeWhile_append_all (p : Nat → Bool) (xs rest : List Nat)
    (h : ∀ c ∈ xs, p c = true) (hr : headNot p rest) :
    (xs ++ rest).takeWhile p = xs ∧ (xs ++ rest).dropWhile p = rest := by
  induction xs with
  | nil =>
    match rest with
    | [] => exact ⟨rfl, rfl⟩
    | c :: t =>
      have hc : p c = false := hr
      simp [List.takeWhile_cons, List.dropWhile_cons, hc]
  | cons x xs ih =>
    have hx : p x = true := h x (by simp)
    have ih2 := ih fun c hc => h c (by simp [hc])
    simp [List.takeWhile_cons, List.dropWhile_cons, hx, ih2.1, ih2.2]

theorem natChars_ne_nil (n : Nat) : natChars n ≠ [] := by
  unfold natChars
  split
  · simp
  · next hn =>
    match n, hn with
    | m + 1, _ =>
      rw [natDigitsRev]
      simp

theorem natChars_head (n : Nat) :
    ∃ c t, natChars n = c :: t ∧ 48 ≤ c ∧ c ≤ 57 := by
  obtain ⟨c, t, hct⟩ := List.exists_cons_of_ne_nil (natChars_ne_nil n)
  refine ⟨c, t, hct, ?_⟩
  have := natChars_digits n c (by rw [hct]; simp)
  exact this

theorem natDigitsRev_val (fuel : Nat) :
    ∀ n, n ≤ fuel →
      (natDigitsRev fuel n).foldr (fun d a => a * 10 + d) 0 = n := by
  induction fuel with
  | zero =>
    intro n hn
    match n, hn with
    | 0, _ => rfl
  | succ f ih =>
    intro n hn
    match n with
    | 0 => rfl
    | m + 1 =>
      have hdiv : (m + 1) / 10 ≤ f := by omega
      rw [natDigitsRev]
      simp only [List.foldr_cons, ih _ hdiv]
      omega

theorem digitsVal_natChars (n : Nat) : digitsVal (natChars n) = n := by
  by_cases h0 : n = 0
  · subst h0; rfl
  · unfold digitsVal natChars
    rw [if_neg h0, List.foldl_map, List.foldl_reverse]
    have hfun : (fun (x : Nat) (y : Nat) => y * 10 + (48 + x - 48)) =
        fun x y => y * 10 + x := by
      funext x y
      omega
    rw [hfun]
    exact natDigitsRev_val n n (by omega)

theorem natChars_all_digits (n : Nat) :
    ∀ c ∈ natChars n, isDigitB c = true := by
  intro c hc
  have := natChars_digits n c hc
  simp only [isDigitB, Bool.and_eq_true, decide_eq_true_eq]
  omega

theorem escChar_ne_nil (c : Nat) : escChar c ≠ [] := by
  unfold escChar
  repeat' split
  all_goals simp

theorem escapeStr_len (s : List Nat) :
    s.length ≤ (escapeStr s).length := by
  induction s with
  | nil => simp [escapeStr]
  | cons c cs ih =>
    have h1 : 1 ≤ (escChar c).length := by
      have := escChar_ne_nil c
      cases hesc : escChar c with
      | nil => exact absurd hesc this
      | cons a t => simp
    simp only [escapeStr, List.length_append, List.length_cons]
    omega

theorem dumpsV_start (v : Json) :
    ∃ c t, dumpsV v = c :: t ∧
      (c = 110 ∨ c = 116 ∨ c = 102 ∨ c = 34 ∨ c = 91 ∨ c = 123 ∨ c = 45 ∨
        (48 ≤ c ∧ c ≤ 57)) := by
  match v with
  | .null => exact ⟨110, _, rfl, by omega⟩
  | .bool true => exact ⟨116, _, rfl, by omega⟩
  | .bool false => exact ⟨102, _, rfl, by omega⟩
  | .str s => exact ⟨34, _, rfl, by omega⟩
  | .arr .nil => exact ⟨91, _, rfl, by omega⟩
  | .arr (.cons e es) => exact ⟨91, _, rfl, by omega⟩
  | .obj .nil => exact ⟨123, _, rfl, by omega⟩
  | .obj (.cons k v2 ms) => exact ⟨123, _, rfl, by omega⟩
  | .num n =>
    unfold dumpsV numChars
    split
    · exact ⟨45, _, rfl, by omega⟩
    · obtain ⟨c, t, hct, h1, h2⟩ := natChars_head n.toNat
      exact ⟨c, t, hct, by omega⟩

theorem skipWs_dumpsV (v : Json) (rest : List Nat) :
    skipWs (dumpsV v ++ rest) = dumpsV v ++ rest := by
  obtain ⟨c, t, hct, hset⟩ := dumpsV_start v
  rw [hct, List.cons_append]
  refine skipWs_nonws c (t ++ rest) ?_
  simp only [wsChar, Bool.or_eq_false_iff, decide_eq_false_iff_not]
  omega

/-! ## Value round trip -/

mutual

/-- Fuel measure for the parser: enough fuel to parse the printed
form of a value. -/
def sizeV : Json → Nat
  | .null => 1
  | .bool _ => 1
  | .num _ => 1
  | .str _ => 1
  | .arr .nil => 1
  | .arr (.cons e es) => 1 + sizeV e + sizeL es
  | .obj .nil => 1
  | .obj (.cons _ v ms) => 1 + sizeV v + sizeM ms

/-- Fuel measure for the remaining-elements parser. -/
def sizeL : JList → Nat
  | .nil => 1
  | .cons e es => 1 + sizeV e + sizeL es

/-- Fuel measure for the remaining-members parser. -/
def sizeM : JMembers → Nat
  | .nil => 1
  | .cons _ v ms => 1 + sizeV v + sizeM ms

end

theorem sizeV_pos (v : Json) : 1 ≤ sizeV v := by
  match v with
  | .null | .bool _ | .num _ | .str _ => exact Nat.le_refl 1
  | .arr .nil => exact Nat.le_refl 1
  | .arr (.cons e es) => show 1 ≤ 1 + sizeV e + sizeL es; omega
  | .obj .nil => exact Nat.le_refl 1
  | .obj (.cons k v2 ms) => show 1 ≤ 1 + sizeV v2 + sizeM ms; omega

theorem sizeL_pos (es : JList) : 1 ≤ sizeL es := by
  match es with
  | .nil => exact Nat.le_refl 1
  | .cons e es2 => show 1 ≤ 1 + sizeV e + sizeL es2; omega

theorem sizeM_pos (ms : JMembers) : 1 ≤ sizeM ms := by
  match ms with
  | .nil => exact Nat.le_refl 1
  | .cons k v ms2 => show 1 ≤ 1 + sizeV v + sizeM ms2; omega

theorem headNot_elems (es : JList) (rest : List Nat) :
    headNot isDigitB (dumpsElems es ++ 93 :: rest) := by
  cases es with
  | nil => show isDigitB 93 = false; decide
  | cons e es2 => show isDigitB 44 = false; decide

theorem headNot_mems (ms : JMembers) (rest : List Nat) :
    headNot isDigitB (dumpsMems ms ++ 125 :: rest) := by
  cases ms with
  | nil => show isDigitB 125 = false; decide
  | cons k v ms2 => show isDigitB 44 = false; decide

theorem natChars_isEmpty (n : Nat) : (natChars n).isEmpty = false := by
  cases hnc : natChars n with
  | nil => exact absurd hnc (natChars_ne_nil n)
  | cons c t => rfl

theorem rtV_null (f : Nat) (rest : List Nat) :
    parseV (f + 1) (dumpsV .null ++ rest) = some (.null, rest) := by
  simp [dumpsV, parseV, skipWs, wsChar, stripLit]

theorem rtV_true (f : Nat) (rest : List Nat) :
    parseV (f + 1) (dumpsV (.bool true) ++ rest) = some (.bool true, rest) := by
  simp [dumpsV, parseV, skipWs, wsChar, stripLit]

theorem rtV_false (f : Nat) (rest : List Nat) :
    parseV (f + 1) (dumpsV (.bool false) ++ rest) =
      some (.bool false, rest) := by
  simp [dumpsV, parseV, skipWs, wsChar, stripLit]

theorem rtV_str (s : List Nat) (hwf : wfStr s = true) (f : Nat)
    (rest : List Nat) :
    parseV (f + 1) (dumpsV (.str s) ++ rest) = some (.str s, rest) := by
  have hshape : dumpsV (.str s) ++ rest = 34 :: (escapeStr s ++ (34 :: rest)) :=
    by simp [dumpsV]
  have hlen : s.length < (escapeStr s ++ (34 :: rest)).length + 1 := by
    have := escapeStr_len s
    simp only [List.length_append, List.length_cons]
    omega
  have hlen2 : s.length < (escapeStr s).length + (rest.length + 1) + 1 := by
    have := escapeStr_len s
    omega
  rw [parseV, hshape, skipWs_nonws 34 _ (by decide)]
  simp [parseStr_escape s hwf _ rest hlen, parseStr_escape s hwf _ rest hlen2]

theorem rtV_num (n : Int) (f : Nat) (rest : List Nat)
    (hr : headNot isDigitB rest) :
    parseV (f + 1) (dumpsV (.num n) ++ rest) = some (.num n, rest) := by
  by_cases hneg : n < 0
  · have hshape : dumpsV (.num n) = 45 :: natChars n.natAbs := by
      simp [dumpsV, numChars, hneg]
    have htake := takeWhile_append_all isDigitB (natChars n.natAbs) rest
      (natChars_all_digits _) hr
    rw [parseV, hshape, List.cons_append, skipWs_nonws 45 _ (by decide)]
    simp [htake.1, htake.2, digitsVal_natChars, natChars_isEmpty]
    rw [abs_of_neg hneg]
    omega
  · have hshape : dumpsV (.num n) = natChars n.toNat := by
      simp [dumpsV, numChars, hneg]
    obtain ⟨c, t, hct, h1, h2⟩ := natChars_head n.toNat
    have htake := takeWhile_append_all isDigitB (natChars n.toNat) rest
      (natChars_all_digits _) hr
    have hnonws : wsChar c = false := by
      simp only [wsChar, Bool.or_eq_false_iff, decide_eq_false_iff_not]
      omega
    have hdig : isDigitB c = true := by
      simp only [isDigitB, Bool.and_eq_true, decide_eq_true_eq]
      omega
    rw [parseV, hshape, hct, List.cons_append, skipWs_nonws c _ hnonws]
    have e110 : ¬(c = 110) := by omega
    have e116 : ¬(c = 116) := by omega
    have e102 : ¬(c = 102) := by omega
    have e34 : ¬(c = 34) := by omega
    have e91 : ¬(c = 91) := by omega
    have e123 : ¬(c = 123) := by omega
    have e45 : ¬(c = 45) := by omega
    simp only [e110, e116, e102, e34, e91, e123, e45, if_false, hdig,
      if_true, ite_false, ite_true]
    rw [← List.cons_append, ← hct]
    simp [htake.1, htake.2, digitsVal_natChars]
    omega

theorem parseV_inner_ws (f : Nat) (v : Json) (Z : List Nat) (out : Json)
    (rest2 : List Nat)
    (hv : parseV f (dumpsV v ++ Z) = some (out, rest2)) :
    parseV f (32 :: (dumpsV v ++ Z)) = some (out, rest2) := by
  calc parseV f (32 :: (dumpsV v ++ Z))
      = parseV f (skipWs (32 :: (dumpsV v ++ Z))) := parseV_skipWs _ _
    _ = parseV f (skipWs (dumpsV v ++ Z)) := by
        rw [skipWs_ws 32 _ (by decide)]
    _ = parseV f (dumpsV v ++ Z) := by rw [skipWs_dumpsV v Z]
    _ = some (out, rest2) := hv

theorem parseV_arr_step (f : Nat) (e : Json) (es : JList) (rest : List Nat)
    (he : parseV f (dumpsV e ++ (dumpsElems es ++ (93 :: rest))) =
      some (e, dumpsElems es ++ (93 :: rest)))
    (hes : parseElems f (dumpsElems es ++ (93 :: rest)) = some (es, rest)) :
    parseV (f + 1) (91 :: (dumpsV e ++ (dumpsElems es ++ (93 :: rest)))) =
      some (.arr (.cons e es), rest) := by
  obtain ⟨c0, t0, hc0, hset⟩ := dumpsV_start e
  have hnws : wsChar c0 = false := by
    simp only [wsChar, Bool.or_eq_false_iff, decide_eq_false_iff_not]
    omega
  have h93 : ¬(c0 = 93) := by omega
  rw [parseV, skipWs_nonws 91 _ (by decide)]
  rw [hc0] at he ⊢
  simp only [List.cons_append] at he ⊢
  simp [skipWs_nonws c0 _ hnws, h93, he, hes]

theorem parseV_obj_step (f : Nat) (k : List Nat) (hk : wfStr k = true)
    (REST2 : List Nat) (v : Json) (ms : JMembers) (rest : List Nat)
    (h58 : REST2 = 58 :: (32 :: (dumpsV v ++ (dumpsMems ms ++ (125 :: rest)))))
    (hv : parseV f (dumpsV v ++ (dumpsMems ms ++ (125 :: rest))) =
      some (v, dumpsMems ms ++ (125 :: rest)))
    (hm : parseMems f (dumpsMems ms ++ (125 :: rest)) = some (ms, rest)) :
    parseV (f + 1) (123 :: (34 :: (escapeStr k ++ (34 :: REST2)))) =
      some (.obj (.cons k v ms), rest) := by
  subst h58
  have hkey := parseStr_escape k hk
    ((escapeStr k ++ (34 :: (58 :: (32 :: (dumpsV v ++
      (dumpsMems ms ++ (125 :: rest))))))).length + 1)
    (58 :: (32 :: (dumpsV v ++ (dumpsMems ms ++ (125 :: rest)))))
    (by have := escapeStr_len k; simp; omega)
  simp only [List.length_append, List.length_cons] at hkey
  have hv2 := parseV_inner_ws f v (dumpsMems ms ++ (125 :: rest)) v
    (dumpsMems ms ++ (125 :: rest)) hv
  rw [parseV, skipWs_nonws 123 _ (by decide)]
  simp [skipWs_nonws 34 _ (by decide), hkey,
    skipWs_nonws 58 _ (by decide), hv2, hm]

theorem parseElems_step (f : Nat) (e : Json) (es : JList) (rest : List Nat)
    (he : parseV f (dumpsV e ++ (dumpsElems es ++ (93 :: rest))) =
      some (e, dumpsElems es ++ (93 :: rest)))
    (hes : parseElems f (dumpsElems es ++ (93 :: rest)) = some (es, rest)) :
    parseElems (f + 1)
      (44 :: (32 :: (dumpsV e ++ (dumpsElems es ++ (93 :: rest))))) =
      some (.cons e es, rest) := by
  have he2 := parseV_inner_ws f e (dumpsElems es ++ (93 :: rest)) e
    (dumpsElems es ++ (93 :: rest)) he
  rw [parseElems, skipWs_nonws 44 _ (by decide)]
  simp [he2, hes]

theorem parseMems_step (f : Nat) (k : List Nat) (hk : wfStr k = true)
    (REST2 : List Nat) (v : Json) (ms : JMembers) (rest : List Nat)
    (h58 : REST2 = 58 :: (32 :: (dumpsV v ++ (dumpsMems ms ++ (125 :: rest)))))
    (hv : parseV f (dumpsV v ++ (dumpsMems ms ++ (125 :: rest))) =
      some (v, dumpsMems ms ++ (125 :: rest)))
    (hm : parseMems f (dumpsMems ms ++ (125 :: rest)) = some (ms, rest)) :
    parseMems (f + 1)
      (44 :: (32 :: (34 :: (escapeStr k ++ (34 :: REST2))))) =
      some (.cons k v ms, rest) := by
  subst h58
  have hkey := parseStr_escape k hk
    ((escapeStr k ++ (34 :: (58 :: (32 :: (dumpsV v ++
      (dumpsMems ms ++ (125 :: rest))))))).length + 1)
    (58 :: (32 :: (dumpsV v ++ (dumpsMems ms ++ (125 :: rest)))))
    (by have := escapeStr_len k; simp; omega)
  simp only [List.length_append, List.length_cons] at hkey
  have hv2 := parseV_inner_ws f v (dumpsMems ms ++ (125 :: rest)) v
    (dumpsMems ms ++ (125 :: rest)) hv
  rw [parseMems, skipWs_nonws 44 _ (by decide)]
  simp [skipWs_ws 32 _ (by decide), skipWs_nonws 34 _ (by decide), hkey,
    skipWs_nonws 58 _ (by decide), hv2, hm]

mutual

theorem rtV : ∀ (v : Json), wfV v = true → ∀ (f : Nat) (rest : List Nat),
    sizeV v ≤ f → headNot isDigitB rest →
    parseV f (dumpsV v ++ rest) = some (v, rest)
  | .null => fun _ f rest hf _ => by
      match f, hf with
      | f + 1, _ => exact rtV_null f rest
  | .bool true => fun _ f rest hf _ => by
      match f, hf with
      | f + 1, _ => exact rtV_true f rest
  | .bool false => fun _ f rest hf _ => by
      match f, hf with
      | f + 1, _ => exact rtV_false f rest
  | .num n => fun _ f rest hf hr => by
      match f, hf with
      | f + 1, _ => exact rtV_num n f rest hr
  | .str s => fun hwf f rest hf _ => by
      match f, hf with
      | f + 1, _ => exact rtV_str s (by simpa [wfV] using hwf) f rest
  | .arr .nil => fun _ f rest hf _ => by
      match f, hf with
      | f + 1, _ => simp [dumpsV, parseV, skipWs, wsChar]
  | .arr (.cons e es) => fun hwf f rest hf _ => by
      have hwf2 : wfV e = true ∧ wfL es = true := by
        have h2 : wfL (JList.cons e es) = true := hwf
        simpa [wfL, Bool.and_eq_true] using h2
      cases f with
      | zero => exact absurd (Nat.le_trans (sizeV_pos _) hf) (by omega)
      | succ f =>
        have hsz : sizeV (.arr (.cons e es)) = 1 + sizeV e + sizeL es := rfl
        rw [hsz] at hf
        have hp1 := sizeV_pos e
        have hp2 := sizeL_pos es
        have he := rtV e hwf2.1 f (dumpsElems es ++ (93 :: rest)) (by omega)
          (headNot_elems es rest)
        have hes := rtL es hwf2.2 f rest (by omega)
        have hshape : dumpsV (.arr (.cons e es)) ++ rest =
            91 :: (dumpsV e ++ (dumpsElems es ++ (93 :: rest))) := by
          simp [dumpsV]
        rw [hshape]
        exact parseV_arr_step f e es rest he hes
  | .obj .nil => fun _ f rest hf _ => by
      match f, hf with
      | f + 1, _ => simp [dumpsV, parseV, skipWs, wsChar]
  | .obj (.cons k v ms) => fun hwf f rest hf _ => by
      have hwf2 : (wfStr k = true ∧ wfV v = true) ∧ wfM ms = true := by
        have h2 : wfM (JMembers.cons k v ms) = true := hwf
        simpa [wfM, Bool.and_eq_true] using h2
      cases f with
      | zero => exact absurd (Nat.le_trans (sizeV_pos _) hf) (by omega)
      | succ f =>
        have hsz : sizeV (.obj (.cons k v ms)) = 1 + sizeV v + sizeM ms := rfl
        rw [hsz] at hf
        have hp1 := sizeV_pos v
        have hp2 := sizeM_pos ms
        have hv := rtV v hwf2.1.2 f (dumpsMems ms ++ (125 :: rest)) (by omega)
          (headNot_mems ms rest)
        have hm := rtM ms hwf2.2 f rest (by omega)
        have hshape : dumpsV (.obj (.cons k v ms)) ++ rest =
            123 :: (34 :: (escapeStr k ++ (34 :: (58 :: (32 :: (dumpsV v ++
              (dumpsMems ms ++ (125 :: rest)))))))) := by
          simp [dumpsV]
        rw [hshape]
        exact parseV_obj_step f k hwf2.1.1 _ v ms rest rfl hv hm

theorem rtL : ∀ (es : JList), wfL es = true → ∀ (f : Nat) (rest : List Nat),
    sizeL es ≤ f →
    parseElems f (dumpsElems es ++ (93 :: rest)) = some (es, rest)
  | .nil => fun _ f rest hf => by
      match f, hf with
      | f + 1, _ => simp [dumpsElems, parseElems, skipWs, wsChar]
  | .cons e es => fun hwf f rest hf => by
      have hwf2 : wfV e = true ∧ wfL es = true := by
        simpa [wfL, Bool.and_eq_true] using hwf
      cases f with
      | zero => exact absurd (Nat.le_trans (sizeL_pos _) hf) (by omega)
      | succ f =>
        have hsz : sizeL (.cons e es) = 1 + sizeV e + sizeL es := rfl
        rw [hsz] at hf
        have hp1 := sizeV_pos e
        have hp2 := sizeL_pos es
        have he := rtV e hwf2.1 f (dumpsElems es ++ (93 :: rest)) (by omega)
          (headNot_elems es rest)
        have hes := rtL es hwf2.2 f rest (by omega)
        have hshape : dumpsElems (.cons e es) ++ (93 :: rest) =
            44 :: (32 :: (dumpsV e ++ (dumpsElems es ++ (93 :: rest)))) := by
          simp [dumpsElems]
        rw [hshape]
        exact parseElems_step f e es rest he hes

theorem rtM : ∀ (ms : JMembers), wfM ms = true →
    ∀ (f : Nat) (rest : List Nat), sizeM ms ≤ f →
    parseMems f (dumpsMems ms ++ (125 :: rest)) = some (ms, rest)
  | .nil => fun _ f rest hf => by
      match f, hf with
      | f + 1, _ => simp [dumpsMems, parseMems, skipWs, wsChar]
  | .cons k v ms => fun hwf f rest hf => by
      have hwf2 : (wfStr k = true ∧ wfV v = true) ∧ wfM ms = true := by
        simpa [wfM, Bool.and_eq_true] using hwf
      cases f with
      | zero => exact absurd (Nat.le_trans (sizeM_pos _) hf) (by omega)
      | succ f =>
        have hsz : sizeM (.cons k v ms) = 1 + sizeV v + sizeM ms := rfl
        rw [hsz] at hf
        have hp1 := sizeV_pos v
        have hp2 := sizeM_pos ms
        have hv := rtV v hwf2.1.2 f (dumpsMems ms ++ (125 :: rest)) (by omega)
          (headNot_mems ms rest)
        have hm := rtM ms hwf2.2 f rest (by omega)
        have hshape : dumpsMems (.cons k v ms) ++ (125 :: rest) =
            44 :: (32 :: (34 :: (escapeStr k ++ (34 :: (58 :: (32 ::
              (dumpsV v ++ (dumpsMems ms ++ (125 :: rest))))))))) := by
          simp [dumpsMems]
        rw [hshape]
        exact parseMems_step f k hwf2.1.1 _ v ms rest rfl hv hm

end

mutual

theorem sizeV_le : ∀ (v : Json), sizeV v ≤ (dumpsV v).length + 1
  | .null => by simp [sizeV, dumpsV]
  | .bool true => by simp [sizeV, dumpsV]
  | .bool false => by simp [sizeV, dumpsV]
  | .num n => by simp only [sizeV]; omega
  | .str s => by simp only [sizeV]; omega
  | .arr .nil => by simp [sizeV, dumpsV]
  | .arr (.cons e es) => by
      have h1 := sizeV_le e
      have h2 := sizeL_le es
      simp only [sizeV, dumpsV, List.length_cons, List.length_append]
      omega
  | .obj .nil => by simp [sizeV, dumpsV]
  | .obj (.cons k v ms) => by
      have h1 := sizeV_le v
      have h2 := sizeM_le ms
      simp only [sizeV, dumpsV, List.length_cons, List.length_append]
      omega

theorem sizeL_le : ∀ (es : JList), sizeL es ≤ (dumpsElems es).length + 1
  | .nil => by simp [sizeL, dumpsElems]
  | .cons e es => by
      have h1 := sizeV_le e
      have h2 := sizeL_le es
      simp only [sizeL, dumpsElems, List.length_cons, List.length_append]
      omega

theorem sizeM_le : ∀ (ms : JMembers), sizeM ms ≤ (dumpsMems ms).length + 1
  | .nil => by simp [sizeM, dumpsMems]
  | .cons k v ms => by
      have h1 := sizeV_le v
      have h2 := sizeM_le ms
      simp only [sizeM, dumpsMems, List.length_cons, List.length_append]
      omega

end

/-- Round trip of the JSON layer: parsing the serialized form of any
well-formed value gives the value back. -/
theorem loads_dumps (v : Json) (h : wfV v = true) :
    loads (dumpsV v) = some v := by
  unfold loads
  have hrt := rtV v h ((dumpsV v).length + 1) [] (sizeV_le v) trivial
  rw [List.append_nil] at hrt
  rw [hrt]
  simp [skipWs]

/-! ## Codec lemmas -/

theorem packHeaderBE_eq (reqId msgLen msgType : Nat) (h1 : reqId < 65536)
    (h2 : msgLen < 4294967296) (h3 : msgType < 65536) :
    packHeaderBE reqId msgLen msgType =
      some ([90, 1] ++ be16 reqId ++ be32 msgLen ++ be16 msgType ++
        [0, 0, 0, 0, 0, 0]) := by
  simp [packHeaderBE, h1, h2, h3]

theorem hdrBE_length (reqId msgLen msgType : Nat) :
    ([90, 1] ++ be16 reqId ++ be32 msgLen ++ be16 msgType ++
      [0, 0, 0, 0, 0, 0]).length = 16 := by
  simp [be16, be32]

theorem unpack_hdrBE (reqId msgLen msgType : Nat) (h1 : reqId < 65536)
    (h2 : msgLen < 4294967296) (h3 : msgType < 65536) :
    unpack_header ([90, 1] ++ be16 reqId ++ be32 msgLen ++ be16 msgType ++
      [0, 0, 0, 0, 0, 0]) =
      some ⟨90, 1, reqId, msgLen, msgType, [0, 0, 0, 0, 0, 0]⟩ := by
  simp only [unpack_header, be16, be32, List.cons_append, List.nil_append]
  simp only [List.length_cons, List.length_nil, if_true]
  simp only [List.getD_cons_zero, List.getD_cons_succ, read16, read32,
    Option.some.injEq, Header.mk.injEq, List.drop_succ_cons,
    List.drop_zero]
  refine ⟨trivial, trivial, by omega, by omega, by omega, trivial⟩

theorem utf8Encode_dumps (v : Json) :
    utf8Encode (dumpsV v) = dumpsV v :=
  utf8Encode_ascii _ (dumpsV_ascii v)

theorem pack_message_nil (reqId msgType : Nat) (h1 : reqId < 65536)
    (h3 : msgType < 65536) :
    pack_message reqId msgType JMembers.nil =
      some ([90, 1] ++ be16 reqId ++ be32 0 ++ be16 msgType ++
        [0, 0, 0, 0, 0, 0]) := by
  simp [pack_message, JMembers.isEmpty, utf8Encode,
    packHeaderBE_eq reqId 0 msgType h1 (by omega) h3]

theorem pack_message_cons (reqId msgType : Nat) (k : List Nat) (v : Json)
    (ms : JMembers) (h1 : reqId < 65536) (h3 : msgType < 65536)
    (hlen : (dumpsV (Json.obj (.cons k v ms))).length < 4294967296) :
    pack_message reqId msgType (.cons k v ms) =
      some (([90, 1] ++ be16 reqId ++
        be32 (dumpsV (Json.obj (.cons k v ms))).length ++ be16 msgType ++
        [0, 0, 0, 0, 0, 0]) ++ dumpsV (Json.obj (.cons k v ms))) := by
  have hb := utf8Encode_dumps (Json.obj (.cons k v ms))
  simp only [pack_message, JMembers.isEmpty, hb, if_false, Bool.false_eq_true]
  rw [packHeaderBE_eq reqId _ msgType h1 (by omega) h3]

theorem parse_body_dumps (v : Json) (hwf : wfV v = true)
    (hne : (dumpsV v).length ≠ 0) :
    parse_body (dumpsV v).length (dumpsV v) = some v := by
  rw [parse_body, if_neg hne, List.take_length,
    utf8Decode_ascii _ (dumpsV_ascii v)]
  simp [loads_dumps v hwf]

/-! ## Controller lemmas -/

theorem send_command_state (st : CState) (reqId msgType : Nat)
    (msg : JMembers) (exp : Option Nat) (ev : NetEvent) :
    (send_command st reqId msgType msg exp ev).state = st ∨
    (send_command st reqId msgType msg exp ev).state =
      { st with connected := false } := by
  unfold send_command
  repeat' split
  all_goals simp

theorem send_command_stats (st : CState) (reqId msgType : Nat)
    (msg : JMembers) (exp : Option Nat) (ev : NetEvent) :
    (send_command st reqId msgType msg exp ev).state.stats = st.stats := by
  rcases send_command_state st reqId msgType msg exp ev with h | h <;> rw [h]

theorem send_command_history (st : CState) (reqId msgType : Nat)
    (msg : JMembers) (exp : Option Nat) (ev : NetEvent) :
    (send_command st reqId msgType msg exp ev).state.position_history =
      st.position_history := by
  rcases send_command_state st reqId msgType msg exp ev with h | h <;> rw [h]

/-- Per-field byte swap of a 16-byte big-endian header into the
little-endian layout of `rotate_angle.py`. -/
def swapHdr (h : List Nat) : List Nat :=
  match h with
  | [b0, b1, b2, b3, b4, b5, b6, b7, b8, b9, b10, b11, b12, b13, b14, b15] =>
      [b0, b1, b3, b2, b7, b6, b5, b4, b9, b8, b10, b11, b12, b13, b14, b15]
  | l => l

/-- Concrete controller state used by the concrete executions: freshly
constructed and connected. -/
def cst0 : CState :=
  { connected := true, socket := some (), position_running := false,
    position_thread := none, last_position := none, position_history := [],
    stats := ⟨0, 0, 0, 0, none, none⟩ }

/-- Concrete controller state that is disconnected and not monitoring. -/
def cstIdle : CState :=
  { connected := false, socket := none, position_running := false,
    position_thread := none, last_position := none, position_history := [],
    stats := ⟨0, 0, 0, 0, none, none⟩ }

theorem historyAppend_le (h : List (Nat × Json)) (e : Nat × Json)
    (hle : h.length ≤ 100) : (historyAppend h e).length ≤ 100 := by
  simp only [historyAppend, max_history]
  split
  · simp
    omega
  · next hgt =>
    simp only [List.length_append, List.length_cons, List.length_nil,
      Nat.not_lt, gt_iff_lt, Nat.not_lt] at hgt ⊢
    omega

theorem historyAppend_full (h : List (Nat × Json)) (e : Nat × Json)
    (hfull : h.length = 100) : historyAppend h e = h.drop 1 ++ [e] := by
  simp only [historyAppend, max_history]
  rw [if_pos (by simp; omega)]
  rw [List.drop_append_of_le_length (by omega)]

theorem historyAppend_foldl (xs : List (Nat × Json)) :
    ∀ h : List (Nat × Json), h.length ≤ 100 →
      xs.foldl historyAppend h = (h ++ xs).drop (h.length + xs.length - 100) := by
  induction xs with
  | nil =>
    intro h hh
    rw [show h.length + [].length - 100 = 0 from by simp; omega]
    simp
  | cons x xs ih =>
    intro h hh
    simp only [List.foldl_cons]
    by_cases hfull : h.length = 100
    · rw [historyAppend_full h x hfull,
        ih _ (by simp [List.length_append]; omega)]
      have hix1 : (h.drop 1 ++ [x]).length + xs.length - 100 = xs.length := by
        simp only [List.length_append, List.length_drop,
          List.length_cons, List.length_nil]
        omega
      have hix2 : h.length + (x :: xs).length - 100 = xs.length + 1 := by
        simp only [List.length_cons]
        omega
      rw [hix1, hix2]
      have e1 : (h.drop 1 ++ [x]) ++ xs = ((h ++ [x]) ++ xs).drop 1 := by
        rw [List.drop_append_of_le_length (by simp),
          List.drop_append_of_le_length (by omega)]
      rw [e1, List.drop_drop]
      have e2 : (h ++ [x]) ++ xs = h ++ x :: xs := by simp
      rw [e2, Nat.add_comm]
    · have hlt : h.length < 100 := by omega
      rw [show historyAppend h x = h ++ [x] from by
        simp only [historyAppend, max_history]
        rw [if_neg (by simp; omega)]]
      rw [ih _ (by simp; omega)]
      have e1 : (h ++ [x]) ++ xs = h ++ x :: xs := by simp
      rw [e1]
      congr 1
      simp
      omega

theorem unpack_header_short (data : List Nat) (h : data.length ≠ 16) :
    unpack_header data = none := by
  rw [unpack_header, if_neg h]

theorem unpack_header_full (data : List Nat) (h : data.length = 16) :
    unpack_header data = some
      { magic := data.getD 0 0
        version := data.getD 1 0
        req_id := read16 (data.getD 2 0) (data.getD 3 0)
        msg_len := read32 (data.getD 4 0) (data.getD 5 0) (data.getD 6 0)
          (data.getD 7 0)
        msg_type := read16 (data.getD 8 0) (data.getD 9 0)
        reserved := data.drop 10 } := by
  rw [unpack_header, if_pos h]

theorem send_command_bad_magic (st : CState) (reqId msgType : Nat)
    (msg : JMembers) (exp : Option Nat) (hdr body frame : List Nat)
    (hconn : st.connected = true)
    (hpack : pack_message reqId msgType msg = some frame)
    (h16 : hdr.length = 16) (hmag : hdr.getD 0 0 ≠ 90) :
    send_command st reqId msgType msg exp (.ok hdr body) =
      ⟨st, none, some frame⟩ := by
  have hmag2 : hdr[0]?.getD 0 ≠ 90 := by simpa [List.getD] using hmag
  have h0 : ¬(hdr.length = 0) := by omega
  simp [send_command, hconn, hpack, h0, unpack_header_full hdr h16,
    hmag, hmag2]

theorem send_command_sent (st : CState) (reqId msgType : Nat)
    (msg : JMembers) (exp : Option Nat) (ev : NetEvent) :
    (send_command st reqId msgType msg exp ev).sent = none ∨
    (send_command st reqId msgType msg exp ev).sent =
      pack_message reqId msgType msg := by
  unfold send_command
  repeat' split
  all_goals simp_all

theorem notifyLoop_map (cbs : List (Json → Bool)) (v : Json) :
    notifyLoop cbs v = cbs.map fun cb => cb v := by
  induction cbs with
  | nil => rfl
  | cons cb rest ih => simp [notifyLoop, ih]

theorem packMasg_eq (id ty : Nat) (m : JMembers) (hid : id < 65536)
    (hty : ty < 65536) (hlen : (dumpsV (Json.obj m)).length < 4294967296) :
    packMasg id ty m = pack_message id ty m := by
  cases m with
  | nil =>
    rw [pack_message_nil id ty hid hty]
    simp [packMasg, JMembers.isEmpty,
      packHeaderBE_eq id 0 ty hid (by omega) hty]
  | cons k v ms =>
    rw [pack_message_cons id ty k v ms hid hty hlen]
    simp [packMasg, JMembers.isEmpty, packHeaderBE_eq id _ ty hid hlen hty,
      asciiEncode_ascii _ (dumpsV_ascii (Json.obj (.cons k v ms)))]

theorem swapHdr_be (id len ty : Nat) :
    swapHdr ([90, 1] ++ be16 id ++ be32 len ++ be16 ty ++
      [0, 0, 0, 0, 0, 0]) =
      [90, 1] ++ le16 id ++ le32 len ++ le16 ty ++ le16 0 ++ [0, 0, 0, 0] := by
  simp [swapHdr, be16, be32, le16, le32]

theorem rotatePack_nil (id ty : Nat) (hid : id < 65536) (hty : ty < 65536) :
    rotatePackMessage id ty JMembers.nil =
      some ([90, 1] ++ le16 id ++ le32 0 ++ le16 ty ++ le16 0 ++
        [0, 0, 0, 0]) := by
  simp [rotatePackMessage, JMembers.isEmpty, utf8Encode, packHeaderLE,
    hid, hty]

theorem rotatePack_cons (id ty : Nat) (k : List Nat) (v : Json)
    (ms : JMembers) (hid : id < 65536) (hty : ty < 65536)
    (hlen : (dumpsV (Json.obj (.cons k v ms))).length < 4294967296) :
    rotatePackMessage id ty (.cons k v ms) =
      some (([90, 1] ++ le16 id ++
        le32 (dumpsV (Json.obj (.cons k v ms))).length ++ le16 ty ++
        le16 0 ++ [0, 0, 0, 0]) ++ dumpsV (Json.obj (.cons k v ms))) := by
  have hb := utf8Encode_dumps (Json.obj (.cons k v ms))
  simp only [rotatePackMessage, JMembers.isEmpty, hb, if_false,
    Bool.false_eq_true]
  rw [show packHeaderLE id (dumpsV (Json.obj (.cons k v ms))).length ty =
    some ([90, 1] ++ le16 id ++
      le32 (dumpsV (Json.obj (.cons k v ms))).length ++ le16 ty ++
      le16 0 ++ [0, 0, 0, 0]) from by simp [packHeaderLE, hid, hty, hlen]]

/-! ## Claim theorems -/

/-- C1: for every request id and message type in the 16-bit unsigned
range and every JSON-serializable dict payload (including the empty
payload) whose serialization fits the 32-bit length field,
`unpack_header` applied to the first 16 bytes of
`pack_message(id, type, payload)` yields the same id and type, and
parsing the body bytes as `send_command` does yields the same
payload. -/
theorem claim_C1 (id ty : Nat) (m : JMembers) (hid : id < 65536)
    (hty : ty < 65536) (hwf : wfV (Json.obj m) = true)
    (hlen : (utf8Encode (dumpsV (Json.obj m))).length < 4294967296) :
    ∃ frame h, pack_message id ty m = some frame ∧
      unpack_header (frame.take 16) = some h ∧
      h.req_id = id ∧ h.msg_type = ty ∧
      parse_body h.msg_len (frame.drop 16) = some (Json.obj m) := by
  rw [utf8Encode_dumps] at hlen
  cases m with
  | nil =>
    refine ⟨_, ⟨90, 1, id, 0, ty, [0, 0, 0, 0, 0, 0]⟩,
      pack_message_nil id ty hid hty, ?_, rfl, rfl, ?_⟩
    · rw [List.take_of_length_le (by rw [hdrBE_length]),
        unpack_hdrBE id 0 ty hid (by omega) hty]
    · rw [List.drop_eq_nil_of_le (by rw [hdrBE_length])]
      rfl
  | cons k v ms =>
    refine ⟨_, ⟨90, 1, id, (dumpsV (Json.obj (.cons k v ms))).length, ty,
      [0, 0, 0, 0, 0, 0]⟩,
      pack_message_cons id ty k v ms hid hty hlen, ?_, rfl, rfl, ?_⟩
    · rw [show (16 : Nat) = ([90, 1] ++ be16 id ++
        be32 (dumpsV (Json.obj (.cons k v ms))).length ++ be16 ty ++
        [0, 0, 0, 0, 0, 0]).length from (hdrBE_length _ _ _).symm,
        List.take_left,
        unpack_hdrBE id _ ty hid hlen hty]
    · rw [show (16 : Nat) = ([90, 1] ++ be16 id ++
        be32 (dumpsV (Json.obj (.cons k v ms))).length ++ be16 ty ++
        [0, 0, 0, 0, 0, 0]).length from (hdrBE_length _ _ _).symm,
        List.drop_left]
      exact parse_body_dumps _ hwf (by simp [dumpsV])

/-- C1 witness: the round trip at the concrete frame
the payload mapping the key "x" to 17. -/
theorem claim_C1_wit :
    (1 : Nat) < 65536 ∧ (1004 : Nat) < 65536 ∧
    wfV (Json.obj (.cons [120] (.num 17) .nil)) = true ∧
    (utf8Encode (dumpsV (Json.obj (.cons [120] (.num 17) .nil)))).length <
      4294967296 ∧
    (∃ frame h,
      pack_message 1 1004 (.cons [120] (.num 17) .nil) = some frame ∧
      unpack_header (frame.take 16) = some h ∧
      h.req_id = 1 ∧ h.msg_type = 1004 ∧
      parse_body h.msg_len (frame.drop 16) =
        some (Json.obj (.cons [120] (.num 17) .nil))) :=
  ⟨by decide, by decide, by decide, by decide,
    claim_C1 1 1004 (.cons [120] (.num 17) .nil) (by decide) (by decide)
      (by decide) (by decide)⟩

/-- C2: the `payload_length` header field written by `pack_message`
(and by `packMasg`, which emits the identical frame) equals the exact
number of body bytes following the 16-byte header, also for payloads
with non-ASCII characters, and an empty payload yields a frame of
exactly 16 bytes with no trailing body. -/
theorem claim_C2 (id ty : Nat) (m : JMembers) (hid : id < 65536)
    (hty : ty < 65536)
    (hlen : (dumpsV (Json.obj m)).length < 4294967296) :
    ∃ frame h, pack_message id ty m = some frame ∧
      packMasg id ty m = some frame ∧
      unpack_header (frame.take 16) = some h ∧
      h.msg_len = (frame.drop 16).length ∧
      h.msg_len = frame.length - 16 ∧
      (m.isEmpty = true → frame.length = 16) := by
  cases m with
  | nil =>
    refine ⟨_, ⟨90, 1, id, 0, ty, [0, 0, 0, 0, 0, 0]⟩,
      pack_message_nil id ty hid hty, ?_, ?_, ?_, ?_, ?_⟩
    · rw [packMasg_eq id ty JMembers.nil hid hty hlen,
        pack_message_nil id ty hid hty]
    · rw [List.take_of_length_le (by rw [hdrBE_length]),
        unpack_hdrBE id 0 ty hid (by omega) hty]
    · rw [List.drop_eq_nil_of_le (by rw [hdrBE_length])]
      rfl
    · rw [hdrBE_length]
    · intro _
      exact hdrBE_length _ _ _
  | cons k v ms =>
    refine ⟨_, ⟨90, 1, id, (dumpsV (Json.obj (.cons k v ms))).length, ty,
      [0, 0, 0, 0, 0, 0]⟩,
      pack_message_cons id ty k v ms hid hty hlen, ?_, ?_, ?_, ?_, ?_⟩
    · rw [packMasg_eq id ty (.cons k v ms) hid hty hlen,
        pack_message_cons id ty k v ms hid hty hlen]
    · rw [show (16 : Nat) = ([90, 1] ++ be16 id ++
        be32 (dumpsV (Json.obj (.cons k v ms))).length ++ be16 ty ++
        [0, 0, 0, 0, 0, 0]).length from (hdrBE_length _ _ _).symm,
        List.take_left,
        unpack_hdrBE id _ ty hid hlen hty]
    · rw [show (16 : Nat) = ([90, 1] ++ be16 id ++
        be32 (dumpsV (Json.obj (.cons k v ms))).length ++ be16 ty ++
        [0, 0, 0, 0, 0, 0]).length from (hdrBE_length _ _ _).symm,
        List.drop_left]
    · rw [List.length_append, hdrBE_length]
      show (dumpsV (Json.obj (.cons k v ms))).length =
        16 + (dumpsV (Json.obj (.cons k v ms))).length - 16
      omega
    · intro hemp
      exact absurd hemp (by simp [JMembers.isEmpty])

/-- C2 witness: the payload-length invariant at the concrete frame for
the non-ASCII payload mapping the key "k" to the string "é". -/
theorem claim_C2_wit :
    (7 : Nat) < 65536 ∧ (3056 : Nat) < 65536 ∧
    (dumpsV (Json.obj (.cons [107] (.str [233]) .nil))).length <
      4294967296 ∧
    (∃ frame h,
      pack_message 7 3056 (.cons [107] (.str [233]) .nil) = some frame ∧
      packMasg 7 3056 (.cons [107] (.str [233]) .nil) = some frame ∧
      unpack_header (frame.take 16) = some h ∧
      h.msg_len = (frame.drop 16).length ∧
      h.msg_len = frame.length - 16 ∧
      ((JMembers.cons [107] (.str [233]) .nil).isEmpty = true →
        frame.length = 16)) :=
  ⟨by decide, by decide, by decide,
    claim_C2 7 3056 (.cons [107] (.str [233]) .nil) (by decide) (by decide)
      (by decide)⟩

/-- C3 counterexample: at request id 1, message type 3056 and the
empty payload, the rotation script's encoder emits different bytes
from the big-endian encoder of every other script, refuting the claim
that all encoder variants produce the same 16 header bytes. -/
theorem claim_C3_cx :
    rotatePackMessage 1 3056 JMembers.nil ≠
      pack_message 1 3056 JMembers.nil := by decide

/-- C3 amended: all encoder variants except the rotation script agree
bit-exactly on the big-endian layout (`packMasg` and `pack_message`
emit identical frames); the rotation script packs the same field
values little-endian with layout `<BBHIHH4x`, so its frame is the
big-endian frame with the bytes of each multi-byte field reversed. -/
theorem claim_C3_amended (id ty : Nat) (m : JMembers) (hid : id < 65536)
    (hty : ty < 65536)
    (hlen : (dumpsV (Json.obj m)).length < 4294967296) :
    packMasg id ty m = pack_message id ty m ∧
    (∀ frame, pack_message id ty m = some frame →
      rotatePackMessage id ty m =
        some (swapHdr (frame.take 16) ++ frame.drop 16)) := by
  refine ⟨packMasg_eq id ty m hid hty hlen, ?_⟩
  intro frame hframe
  cases m with
  | nil =>
    rw [pack_message_nil id ty hid hty] at hframe
    have hf := Option.some.inj hframe
    subst hf
    rw [List.take_of_length_le (by rw [hdrBE_length]),
      List.drop_eq_nil_of_le (by rw [hdrBE_length]),
      swapHdr_be, rotatePack_nil id ty hid hty]
    simp
  | cons k v ms =>
    rw [pack_message_cons id ty k v ms hid hty hlen] at hframe
    have hf := Option.some.inj hframe
    subst hf
    rw [show (16 : Nat) = ([90, 1] ++ be16 id ++
      be32 (dumpsV (Json.obj (.cons k v ms))).length ++ be16 ty ++
      [0, 0, 0, 0, 0, 0]).length from (hdrBE_length _ _ _).symm,
      List.take_left, List.drop_left, swapHdr_be,
      rotatePack_cons id ty k v ms hid hty hlen]

/-- C3 amended witness: the relation at request id 2, message type
3056 and the payload `\x7b"x": 17\x7d`. -/
theorem claim_C3_amended_wit :
    (2 : Nat) < 65536 ∧ (3056 : Nat) < 65536 ∧
    (dumpsV (Json.obj (.cons [120] (.num 17) .nil))).length < 4294967296 ∧
    (packMasg 2 3056 (.cons [120] (.num 17) .nil) =
      pack_message 2 3056 (.cons [120] (.num 17) .nil) ∧
    (∀ frame,
      pack_message 2 3056 (.cons [120] (.num 17) .nil) = some frame →
      rotatePackMessage 2 3056 (.cons [120] (.num 17) .nil) =
        some (swapHdr (frame.take 16) ++ frame.drop 16))) :=
  ⟨by decide, by decide, by decide,
    claim_C3_amended 2 3056 (.cons [120] (.num 17) .nil) (by decide)
      (by decide) (by decide)⟩

/-- C4 counterexample: with a connected controller, a response
timeout (a transport-level failure) makes `send_command` return a
failure yet leave the connected flag true, refuting the claim that
every transport- or framing-level failure marks the connection as
broken. -/
theorem claim_C4_cx :
    (send_command cst0 1 1004 JMembers.nil (some 11004)
      NetEvent.timeout).response = none ∧
    (send_command cst0 1 1004 JMembers.nil (some 11004)
      NetEvent.timeout).state.connected = true ∧
    ¬((send_command cst0 1 1004 JMembers.nil (some 11004)
      NetEvent.timeout).state.connected = false) :=
  ⟨rfl, rfl, by decide⟩

/-- C4 amended: `send_command` never retries and returns `None` on
every failure, but only exceptions raised while sending or receiving
(including a malformed short header, which makes `struct.unpack`
raise) set the connected flag to false; a response timeout, an empty
response header, a wrong magic byte and the other validation failures
leave the connected flag unchanged. -/
theorem claim_C4_amended (st : CState) (reqId msgType : Nat)
    (msg : JMembers) (exp : Option Nat) (frame : List Nat)
    (hconn : st.connected = true)
    (hpack : pack_message reqId msgType msg = some frame) :
    ((send_command st reqId msgType msg exp
        NetEvent.sendErr).state.connected = false ∧
      (send_command st reqId msgType msg exp NetEvent.sendErr).response =
        none) ∧
    ((send_command st reqId msgType msg exp
        NetEvent.recvErr).state.connected = false ∧
      (send_command st reqId msgType msg exp NetEvent.recvErr).response =
        none) ∧
    ((send_command st reqId msgType msg exp NetEvent.timeout).state = st ∧
      (send_command st reqId msgType msg exp NetEvent.timeout).response =
        none) ∧
    (∀ hdr body, hdr ≠ [] → hdr.length ≠ 16 →
      (send_command st reqId msgType msg exp
        (.ok hdr body)).state.connected = false ∧
      (send_command st reqId msgType msg exp (.ok hdr body)).response =
        none) ∧
    (∀ hdr body, hdr.length = 16 → hdr.getD 0 0 ≠ 90 →
      (send_command st reqId msgType msg exp (.ok hdr body)).state = st ∧
      (send_command st reqId msgType msg exp (.ok hdr body)).response =
        none) := by
  refine ⟨?_, ?_, ?_, ?_, ?_⟩
  · constructor <;> simp [send_command, hconn, hpack]
  · constructor <;> simp [send_command, hconn, hpack]
  · constructor <;> simp [send_command, hconn, hpack]
  · intro hdr body hne h16
    have h0 : ¬(hdr.length = 0) := by
      intro hc
      exact hne (List.eq_nil_of_length_eq_zero hc)
    constructor <;>
      simp [send_command, hconn, hpack, h0, unpack_header_short hdr h16]
  · intro hdr body h16 hmag
    rw [send_command_bad_magic st reqId msgType msg exp hdr body frame
      hconn hpack h16 hmag]
    exact ⟨rfl, rfl⟩

/-- C4 amended witness: the timeout behaviour at the concrete
connected state and the position-query frame. -/
theorem claim_C4_amended_wit :
    cst0.connected = true ∧
    pack_message 1 1004 JMembers.nil =
      some [90, 1, 0, 1, 0, 0, 0, 0, 3, 236, 0, 0, 0, 0, 0, 0] ∧
    (((send_command cst0 1 1004 JMembers.nil (some 11004)
        NetEvent.sendErr).state.connected = false ∧
      (send_command cst0 1 1004 JMembers.nil (some 11004)
        NetEvent.sendErr).response = none) ∧
    ((send_command cst0 1 1004 JMembers.nil (some 11004)
        NetEvent.recvErr).state.connected = false ∧
      (send_command cst0 1 1004 JMembers.nil (some 11004)
        NetEvent.recvErr).response = none) ∧
    ((send_command cst0 1 1004 JMembers.nil (some 11004)
        NetEvent.timeout).state = cst0 ∧
      (send_command cst0 1 1004 JMembers.nil (some 11004)
        NetEvent.timeout).response = none) ∧
    (∀ hdr body, hdr ≠ [] → hdr.length ≠ 16 →
      (send_command cst0 1 1004 JMembers.nil (some 11004)
        (.ok hdr body)).state.connected = false ∧
      (send_command cst0 1 1004 JMembers.nil (some 11004)
        (.ok hdr body)).response = none) ∧
    (∀ hdr body, hdr.length = 16 → hdr.getD 0 0 ≠ 90 →
      (send_command cst0 1 1004 JMembers.nil (some 11004)
        (.ok hdr body)).state = cst0 ∧
      (send_command cst0 1 1004 JMembers.nil (some 11004)
        (.ok hdr body)).response = none)) :=
  ⟨rfl, rfl, claim_C4_amended cst0 1 1004 JMembers.nil (some 11004)
    [90, 1, 0, 1, 0, 0, 0, 0, 3, 236, 0, 0, 0, 0, 0, 0] rfl rfl⟩

/-- C5: header decoding fails for every buffer shorter than 16 bytes
(`unpack_header` raises), a received 16-byte header whose first byte
is not the sentinel 0x5A makes `send_command` reject the frame and
return a failure, and on a full 16-byte buffer `unpack_header`
returns exactly the parsed big-endian fields. -/
theorem claim_C5 :
    (∀ data : List Nat, data.length < 16 → unpack_header data = none) ∧
    (∀ b0 b1 b2 b3 b4 b5 b6 b7 b8 b9 b10 b11 b12 b13 b14 b15 : Nat,
      unpack_header [b0, b1, b2, b3, b4, b5, b6, b7, b8, b9, b10, b11,
        b12, b13, b14, b15] =
        some ⟨b0, b1, read16 b2 b3, read32 b4 b5 b6 b7, read16 b8 b9,
          [b10, b11, b12, b13, b14, b15]⟩) ∧
    (∀ (st : CState) (reqId msgType : Nat) (msg : JMembers)
      (exp : Option Nat) (hdr body frame : List Nat),
      st.connected = true → pack_message reqId msgType msg = some frame →
      hdr.length = 16 → hdr.getD 0 0 ≠ 90 →
      (send_command st reqId msgType msg exp (.ok hdr body)).response =
        none ∧
      (send_command st reqId msgType msg exp (.ok hdr body)).state = st) := by
  refine ⟨?_, ?_, ?_⟩
  · intro data h
    exact unpack_header_short data (by omega)
  · intro b0 b1 b2 b3 b4 b5 b6 b7 b8 b9 b10 b11 b12 b13 b14 b15
    rfl
  · intro st reqId msgType msg exp hdr body frame hconn hpack h16 hmag
    rw [send_command_bad_magic st reqId msgType msg exp hdr body frame
      hconn hpack h16 hmag]
    exact ⟨rfl, rfl⟩

/-- C5 witness: a 10-byte buffer is rejected, a bad-magic 16-byte
header is rejected by `send_command`, and a well-formed 16-byte
buffer decodes to its fields. -/
theorem claim_C5_wit :
    ([0, 1, 2, 3, 4, 5, 6, 7, 8, 9] : List Nat).length < 16 ∧
    unpack_header [0, 1, 2, 3, 4, 5, 6, 7, 8, 9] = none ∧
    unpack_header [90, 1, 0, 7, 0, 0, 0, 2, 42, 252, 0, 0, 0, 0, 0, 0] =
      some ⟨90, 1, read16 0 7, read32 0 0 0 2, read16 42 252,
        [0, 0, 0, 0, 0, 0]⟩ ∧
    (send_command cst0 1 1004 JMembers.nil (some 11004)
      (.ok [91, 1, 0, 1, 0, 0, 0, 0, 42, 252, 0, 0, 0, 0, 0, 0]
        [])).response = none :=
  ⟨by decide, claim_C5.1 [0, 1, 2, 3, 4, 5, 6, 7, 8, 9] (by decide),
    claim_C5.2.1 90 1 0 7 0 0 0 2 42 252 0 0 0 0 0 0,
    (claim_C5.2.2 cst0 1 1004 JMembers.nil (some 11004)
      [91, 1, 0, 1, 0, 0, 0, 0, 42, 252, 0, 0, 0, 0, 0, 0] []
      [90, 1, 0, 1, 0, 0, 0, 0, 3, 236, 0, 0, 0, 0, 0, 0] rfl rfl
      (by decide) (by decide)).1⟩

/-- C6: after every sequence of successful position queries the
history holds at most 100 entries and equals the insertion-ordered
suffix of the appended samples (FIFO, oldest first); appending to a
full history of 100 drops exactly the entry at index 0; and
`query_position` preserves the bound. -/
theorem claim_C6 :
    (∀ xs : List (Nat × Json),
      (xs.foldl historyAppend []).length ≤ 100 ∧
      xs.foldl historyAppend [] = xs.drop (xs.length - 100)) ∧
    (∀ (h : List (Nat × Json)) (e : Nat × Json), h.length = 100 →
      historyAppend h e = h.drop 1 ++ [e]) ∧
    (∀ (st : CState) (cbs : List (Json → Bool)) (ecbs : List Bool)
      (ev : NetEvent) (now : Nat), st.position_history.length ≤ 100 →
      (query_position st cbs ecbs ev now).state.position_history.length ≤
        100) := by
  refine ⟨?_, historyAppend_full, ?_⟩
  · intro xs
    have h := historyAppend_foldl xs [] (by simp)
    simp only [List.nil_append, List.length_nil, Nat.zero_add] at h
    refine ⟨?_, h⟩
    rw [h, List.length_drop]
    omega
  · intro st cbs ecbs ev now hle
    cases hr : (send_command { st with stats :=
        { st.stats with
            position_queries := st.stats.position_queries + 1 } }
        1 REQUEST_POSITION JMembers.nil (some RESPONSE_POSITION)
        ev).response with
    | none =>
      simp [query_position, hr, send_command_history]
      exact hle
    | some data =>
      simp [query_position, hr, send_command_history]
      exact historyAppend_le _ _ hle

/-- C6 witness: the FIFO suffix equation at a concrete three-sample
sequence and the bound preservation at the concrete state. -/
theorem claim_C6_wit :
    (([(0, Json.null), (1, Json.null), (2, Json.null)] :
        List (Nat × Json)).foldl historyAppend []).length ≤ 100 ∧
    ([(0, Json.null), (1, Json.null), (2, Json.null)] :
        List (Nat × Json)).foldl historyAppend [] =
      ([(0, Json.null), (1, Json.null), (2, Json.null)] :
        List (Nat × Json)).drop
        (([(0, Json.null), (1, Json.null), (2, Json.null)] :
          List (Nat × Json)).length - 100) ∧
    cst0.position_history.length ≤ 100 ∧
    (query_position cst0 [] [] NetEvent.timeout
      0).state.position_history.length ≤ 100 :=
  ⟨(claim_C6.1 [(0, Json.null), (1, Json.null), (2, Json.null)]).1,
    (claim_C6.1 [(0, Json.null), (1, Json.null), (2, Json.null)]).2,
    by decide,
    claim_C6.2.2 cst0 [] [] NetEvent.timeout 0 (by decide)⟩

/-- C7 counterexample: two successive position queries issued through
the client both place request id 1 in the request header, and 1 is
not the successor of 1 modulo 2^16, refuting the claim that the
request id increments between successive calls. -/
theorem claim_C7_cx :
    sentReqId (query_position cst0 [] [] NetEvent.timeout 0) = some 1 ∧
    sentReqId (query_position (query_position cst0 [] []
      NetEvent.timeout 0).state [] [] NetEvent.timeout 1) = some 1 ∧
    (1 : Nat) ≠ (1 + 1) % 65536 :=
  ⟨rfl, rfl, by decide⟩

/-- C7 amended: there is no request-id counter; every request frame
sent by `query_position` carries the constant request id 1 in its
header, so successive calls reuse the same id. -/
theorem claim_C7_amended (st : CState) (cbs : List (Json → Bool))
    (ecbs : List Bool) (ev : NetEvent) (now : Nat) (frame : List Nat)
    (h : (query_position st cbs ecbs ev now).sent = some frame) :
    (unpack_header (frame.take 16)).map Header.req_id = some 1 := by
  have hq : (query_position st cbs ecbs ev now).sent =
      (send_command { st with stats :=
        { st.stats with
            position_queries := st.stats.position_queries + 1 } }
        1 REQUEST_POSITION JMembers.nil (some RESPONSE_POSITION) ev).sent := by
    unfold query_position
    cases hr : (send_command { st with stats :=
        { st.stats with
            position_queries := st.stats.position_queries + 1 } }
        1 REQUEST_POSITION JMembers.nil (some RESPONSE_POSITION)
        ev).response <;> simp [hr]
  rcases send_command_sent { st with stats :=
      { st.stats with
          position_queries := st.stats.position_queries + 1 } }
      1 REQUEST_POSITION JMembers.nil (some RESPONSE_POSITION) ev with
    hs | hs
  · rw [hq, hs] at h
    exact absurd h (by simp)
  · rw [hq, hs] at h
    have hp : pack_message 1 REQUEST_POSITION JMembers.nil =
        some [90, 1, 0, 1, 0, 0, 0, 0, 3, 236, 0, 0, 0, 0, 0, 0] := by rfl
    rw [hp] at h
    have hfr := Option.some.inj h
    subst hfr
    rfl

/-- C7 amended witness: the constant request id at the concrete
connected state. -/
theorem claim_C7_amended_wit :
    (query_position cst0 [] [] NetEvent.timeout 0).sent =
      some [90, 1, 0, 1, 0, 0, 0, 0, 3, 236, 0, 0, 0, 0, 0, 0] ∧
    (unpack_header
      (([90, 1, 0, 1, 0, 0, 0, 0, 3, 236, 0, 0, 0, 0, 0, 0] :
        List Nat).take 16)).map Header.req_id = some 1 :=
  ⟨rfl, claim_C7_amended cst0 [] [] NetEvent.timeout 0
    [90, 1, 0, 1, 0, 0, 0, 0, 3, 236, 0, 0, 0, 0, 0, 0] rfl⟩

/-- C8: on a successful position query, every registered position
callback is invoked exactly once, in registration order, each inside
its own failure boundary, so a failing callback aborts neither the
later callbacks nor the query, whose result and state do not depend
on the callbacks. -/
theorem claim_C8 (st : CState) (cbs : List (Json → Bool))
    (ecbs : List Bool) (ev : NetEvent) (now : Nat) (v : Json)
    (h : (query_position st cbs ecbs ev now).response = some v) :
    (query_position st cbs ecbs ev now).posCalls = notifyLoop cbs v ∧
    (notifyLoop cbs v).length = cbs.length ∧
    (∀ i : Nat, (notifyLoop cbs v)[i]? = (cbs[i]?).map fun cb => cb v) ∧
    (query_position st cbs ecbs ev now).response =
      (query_position st [] ecbs ev now).response ∧
    (query_position st cbs ecbs ev now).state =
      (query_position st [] ecbs ev now).state := by
  cases hr : (send_command { st with stats :=
      { st.stats with
          position_queries := st.stats.position_queries + 1 } }
      1 REQUEST_POSITION JMembers.nil (some RESPONSE_POSITION)
      ev).response with
  | none =>
    rw [show (query_position st cbs ecbs ev now).response = none from by
      simp [query_position, hr]] at h
    exact absurd h (by simp)
  | some data =>
    have hv : data = v := by
      have hq : (query_position st cbs ecbs ev now).response = some data :=
        by simp [query_position, hr]
      rw [hq] at h
      exact Option.some.inj h
    subst hv
    refine ⟨by simp [query_position, hr], by rw [notifyLoop_map]; simp,
      ?_, by simp [query_position, hr], by simp [query_position, hr]⟩
    intro i
    rw [notifyLoop_map]
    exact List.getElem?_map _ _ _

/-- C8 witness: a failing first callback does not prevent the second
from running, at a concrete successful query. -/
theorem claim_C8_wit :
    (query_position cst0 [fun _ => false, fun _ => true] []
      (NetEvent.ok [90, 1, 0, 1, 0, 0, 0, 0, 42, 252, 0, 0, 0, 0, 0, 0] [])
      5).response = some (Json.obj JMembers.nil) ∧
    ((query_position cst0 [fun _ => false, fun _ => true] []
        (NetEvent.ok [90, 1, 0, 1, 0, 0, 0, 0, 42, 252, 0, 0, 0, 0, 0, 0]
          []) 5).posCalls =
      notifyLoop [fun _ => false, fun _ => true] (Json.obj JMembers.nil) ∧
    (notifyLoop [fun _ => false, fun _ => true]
      (Json.obj JMembers.nil)).length =
      ([fun _ => false, fun _ => true] : List (Json → Bool)).length ∧
    (∀ i : Nat, (notifyLoop [fun _ => false, fun _ => true]
        (Json.obj JMembers.nil))[i]? =
      (([fun _ => false, fun _ => true] : List (Json → Bool))[i]?).map
        fun cb => cb (Json.obj JMembers.nil)) ∧
    (query_position cst0 [fun _ => false, fun _ => true] []
      (NetEvent.ok [90, 1, 0, 1, 0, 0, 0, 0, 42, 252, 0, 0, 0, 0, 0, 0] [])
      5).response =
      (query_position cst0 [] []
        (NetEvent.ok [90, 1, 0, 1, 0, 0, 0, 0, 42, 252, 0, 0, 0, 0, 0, 0]
          []) 5).response ∧
    (query_position cst0 [fun _ => false, fun _ => true] []
      (NetEvent.ok [90, 1, 0, 1, 0, 0, 0, 0, 42, 252, 0, 0, 0, 0, 0, 0] [])
      5).state =
      (query_position cst0 [] []
        (NetEvent.ok [90, 1, 0, 1, 0, 0, 0, 0, 42, 252, 0, 0, 0, 0, 0, 0]
          []) 5).state) :=
  ⟨rfl, claim_C8 cst0 [fun _ => false, fun _ => true] []
    (NetEvent.ok [90, 1, 0, 1, 0, 0, 0, 0, 42, 252, 0, 0, 0, 0, 0, 0] [])
    5 (Json.obj JMembers.nil) rfl⟩

/-- C9: stopping an already-stopped monitor and disconnecting an
already-disconnected controller are no-ops that leave the whole
controller state unchanged. -/
theorem claim_C9 (st : CState) :
    (st.position_running = false → stop_position_monitoring st = st) ∧
    (st.socket = none → st.connected = false → disconnect st = st) := by
  constructor
  · intro h
    rw [stop_position_monitoring, if_pos h]
  · intro h1 h2
    cases st with
    | mk conn sock run thr lp hist stats =>
      simp only at h1 h2
      simp [disconnect, h1, h2]

/-- C9 witness: both no-ops at the concrete idle controller state. -/
theorem claim_C9_wit :
    stop_position_monitoring cstIdle = cstIdle ∧
    disconnect cstIdle = cstIdle :=
  ⟨(claim_C9 cstIdle).1 rfl, (claim_C9 cstIdle).2 rfl rfl⟩

/-- C10: every completed `query_position` call increments
`position_queries` by exactly one, increments exactly one of
`successful_queries` and `failed_queries` by one, and therefore
preserves the invariant that `position_queries` equals
`successful_queries + failed_queries`. -/
theorem claim_C10 (st : CState) (cbs : List (Json → Bool))
    (ecbs : List Bool) (ev : NetEvent) (now : Nat) :
    (query_position st cbs ecbs ev now).state.stats.position_queries =
      st.stats.position_queries + 1 ∧
    (((query_position st cbs ecbs ev now).state.stats.successful_queries =
        st.stats.successful_queries + 1 ∧
      (query_position st cbs ecbs ev now).state.stats.failed_queries =
        st.stats.failed_queries) ∨
     ((query_position st cbs ecbs ev now).state.stats.successful_queries =
        st.stats.successful_queries ∧
      (query_position st cbs ecbs ev now).state.stats.failed_queries =
        st.stats.failed_queries + 1)) ∧
    (st.stats.position_queries =
        st.stats.successful_queries + st.stats.failed_queries →
      (query_position st cbs ecbs ev now).state.stats.position_queries =
        (query_position st cbs ecbs ev now).state.stats.successful_queries
          + (query_position st cbs ecbs ev now).state.stats.failed_queries)
    := by
  cases hr : (send_command { st with stats :=
      { st.stats with
          position_queries := st.stats.position_queries + 1 } }
      1 REQUEST_POSITION JMembers.nil (some RESPONSE_POSITION)
      ev).response with
  | none =>
    have hq : (query_position st cbs ecbs ev now).state.stats =
        { st.stats with
            position_queries := st.stats.position_queries + 1
            failed_queries := st.stats.failed_queries + 1 } := by
      simp [query_position, hr, send_command_stats]
    rw [hq]
    refine ⟨rfl, Or.inr ⟨rfl, rfl⟩, ?_⟩
    intro hinv
    simp only
    omega
  | some data =>
    have hq : (query_position st cbs ecbs ev now).state.stats =
        { st.stats with
            position_queries := st.stats.position_queries + 1
            successful_queries := st.stats.successful_queries + 1
            last_update := some now } := by
      simp [query_position, hr, send_command_stats]
    rw [hq]
    refine ⟨rfl, Or.inl ⟨rfl, rfl⟩, ?_⟩
    intro hinv
    simp only
    omega

/-- C10 witness: the counter changes at the concrete connected state
and a timed-out query. -/
theorem claim_C10_wit :
    (query_position cst0 [] [] NetEvent.timeout
      0).state.stats.position_queries = cst0.stats.position_queries + 1 ∧
    (((query_position cst0 [] [] NetEvent.timeout
        0).state.stats.successful_queries =
        cst0.stats.successful_queries + 1 ∧
      (query_position cst0 [] [] NetEvent.timeout
        0).state.stats.failed_queries = cst0.stats.failed_queries) ∨
     ((query_position cst0 [] [] NetEvent.timeout
        0).state.stats.successful_queries =
        cst0.stats.successful_queries ∧
      (query_position cst0 [] [] NetEvent.timeout
        0).state.stats.failed_queries =
        cst0.stats.failed_queries + 1)) ∧
    (query_position cst0 [] [] NetEvent.timeout
      0).state.stats.position_queries =
      (query_position cst0 [] [] NetEvent.timeout
        0).state.stats.successful_queries +
      (query_position cst0 [] [] NetEvent.timeout
        0).state.stats.failed_queries :=
  ⟨(claim_C10 cst0 [] [] NetEvent.timeout 0).1,
    (claim_C10 cst0 [] [] NetEvent.timeout 0).2.1,
    (claim_C10 cst0 [] [] NetEvent.timeout 0).2.2 (by decide)⟩
